import Mathlib

/-!
Shallow embedding of the module and global-binding subsystem (src/src/module.c).

Modules and bindings are heap cells addressed by natural-number ids, with the
heap and the per-module binding table represented as association lists.  The
resolver (`jl_resolve_owner` / `using_resolve_binding`) is a mutual recursion
in C whose termination relies on the cycle detector; here it carries an
explicit fuel argument, exhausting fuel reports `Err.fuelOut`, so a result of
`.ok` witnesses actual termination of the C recursion.  The stderr diagnostics
are modelled as a list of `Warn` events, and `jl_errorf`-style exceptions as
`Except Err`.
-/

/-- Interned symbols: identity equality is string equality. -/
abbrev Name := String

/-- Association-list lookup (first match wins), modelling `ptrhash_get`. -/
def lookupA {κ α : Type} [DecidableEq κ] : List (κ × α) → κ → Option α
  | [], _ => none
  | (k, a) :: t, k' => if k = k' then some a else lookupA t k'

/-- Association-list update/insert (first match replaced), modelling
`ptrhash_bp` followed by a store through the bucket pointer. -/
def setA {κ α : Type} [DecidableEq κ] : List (κ × α) → κ → α → List (κ × α)
  | [], k, a => [(k, a)]
  | (k', a') :: t, k, a => if k' = k then (k, a) :: t else (k', a') :: setA t k a

/-- Kinds of host-language values the subsystem inspects: integers, strings,
type objects, modules and the `nothing` singleton. -/
inductive VKind : Type where
  | kint : Int → VKind
  | kstr : String → VKind
  | ktype : Nat → VKind
  | kmodule : Nat → VKind
  | knothing : VKind
  deriving DecidableEq

/-- A host-language value: a pointer identity `vid` plus its contents. -/
structure Val : Type where
  vid : Nat
  kind : VKind
  deriving DecidableEq

/-- Type tags, standing for the `jl_typeof` of a value. -/
inductive TyTag : Type where
  | tint | tstr | tdatatype | tmodule | tnothing
  deriving DecidableEq

def VKind.tyTag : VKind → TyTag
  | .kint _ => .tint
  | .kstr _ => .tstr
  | .ktype _ => .tdatatype
  | .kmodule _ => .tmodule
  | .knothing => .tnothing

/-- `jl_typeof`. -/
def typeofV (v : Val) : TyTag := v.kind.tyTag

/-- `jl_is_type`. -/
def jl_is_type (v : Val) : Bool :=
  match v.kind with
  | .ktype _ => true
  | _ => false

/-- `jl_is_module`. -/
def jl_is_module (v : Val) : Bool :=
  match v.kind with
  | .kmodule _ => true
  | _ => false

/-- pointer comparison against the `jl_nothing` singleton. -/
def isNothingV (v : Val) : Bool :=
  match v.kind with
  | .knothing => true
  | _ => false

/-- `jl_egal`: structural equality (bit comparison for plain data, pointer
identity for mutable objects such as modules). -/
def jl_egal (a b : Val) : Bool :=
  a.vid == b.vid ||
  match a.kind, b.kind with
  | .kint m, .kint n => m == n
  | .kstr s, .kstr t => s == t
  | .ktype s, .ktype t => s == t
  | .knothing, .knothing => true
  | _, _ => false

/-- A binding's declared type (`b->ty`): either the top type `Any` or some
concrete type. -/
inductive DeclTy : Type where
  | anyT : DeclTy
  | concrete : TyTag → DeclTy
  deriving DecidableEq

/-- `jl_isa` restricted to the shapes the assignment gate tests. -/
def isaD (v : Val) : DeclTy → Bool
  | .anyT => true
  | .concrete t => typeofV v == t

/-- A binding cell (`jl_binding_t`).  `owner = none` models a NULL owner
(an unresolved placeholder); `owner = some b` with `b` the cell's own id
models a canonical binding; any other `some` is a one-hop alias.  `grMod`
and `grName` model the back-reference `b->globalref`. -/
structure Binding : Type where
  value : Option Val
  ty : Option DeclTy
  owner : Option Nat
  constp : Bool
  exportp : Bool
  imported : Bool
  deprecated : Nat
  grMod : Nat
  grName : Name
  deriving DecidableEq

/-- The all-unset cell produced by `new_binding` (before the caller fills
`owner` etc.). -/
def new_binding (mod : Nat) (name : Name) : Binding :=
  ⟨none, none, none, false, false, false, 0, mod, name⟩

/-- Default used to totalize heap dereference of a dangling id. -/
def defaultBinding : Binding := new_binding 0 ""

/-- A module (`jl_module_t`): name, binding table, ordered `usings` list
(most recently added last, as `arraylist_push` appends). -/
structure JModule : Type where
  mname : Name
  bindings : List (Name × Nat)
  usings : List Nat
  deriving DecidableEq

def emptyModule : JModule := ⟨"", [], []⟩

/-- Warnings printed to stderr, modelled as events. -/
inductive Warn : Type where
  | mustBeQualified (ownerMod impMod : Nat) (v : Name) (m : Nat)
  | couldNotImport (fromM : Nat) (s : Name) (toM : Nat)
  | deprecatedImport (fromM : Nat) (s : Name) (toM : Nat)
  | conflictingImport (fromM : Nat) (s : Name) (toM : Nat)
  | conflictsExisting (fromM : Nat) (s : Name) (toM : Nat)
  | usingConflict (fromM : Nat) (v : Name) (toM : Nat)
  | constRedef (m : Nat) (v : Name)
  | deprecatedUse (m : Nat) (v : Name)
  | depMessage (m : Nat) (v : Name)
  deriving DecidableEq

/-- Errors raised via `jl_errorf` and friends, plus `fuelOut` marking
exhaustion of the termination fuel (the C code would still be recursing). -/
inductive Err : Type where
  | cannotAssignImported (m : Nat) (v : Name)
  | mustExplicitlyImport (m : Nat) (v : Name)
  | constantRedefinition (v : Name)
  | constantRedeclaration (v : Name)
  | typeMismatch (m : Nat) (v : Name)
  | undefinedVar (v : Name)
  | deprecatedUseErr (m : Nat) (v : Name)
  | fuelOut
  deriving DecidableEq

/-- Global interpreter state: the module table, the binding heap, the
fresh-id counter, the stderr event log, the `jl_main_module` /
`jl_base_module` handles and `jl_options.depwarn` (0 = off, 1 = warn,
2 = error). -/
structure St : Type where
  mods : List (Nat × JModule)
  heap : List (Nat × Binding)
  nextB : Nat
  warns : List Warn
  mainM : Option Nat
  baseM : Option Nat
  depwarn : Nat
  deriving DecidableEq

def St.getMod (st : St) (m : Nat) : JModule := (lookupA st.mods m).getD emptyModule

def St.getB (st : St) (b : Nat) : Binding := (lookupA st.heap b).getD defaultBinding

def St.setB (st : St) (b : Nat) (bb : Binding) : St := { st with heap := setA st.heap b bb }

def St.setMod (st : St) (m : Nat) (mm : JModule) : St := { st with mods := setA st.mods m mm }

def St.addWarn (st : St) (w : Warn) : St := { st with warns := w :: st.warns }

/-- `jl_get_module_binding`: raw table lookup, `none` for `HT_NOTFOUND`. -/
def jl_get_module_binding (st : St) (m : Nat) (var : Name) : Option Nat :=
  lookupA (st.getMod m).bindings var

/-- `eq_bindings`: same cell, same owner pointer, or both constants bound to
the identical (pointer-equal) value. -/
def eq_bindings (st : St) (a b : Nat) : Bool :=
  a == b ||
  (st.getB a).owner == (st.getB b).owner ||
  ((st.getB a).constp && (st.getB b).constp &&
    (match (st.getB a).value, (st.getB b).value with
     | some va, some vb => va.vid == vb.vid
     | _, _ => false))

/-- Allocate a fresh cell `bb` at the next heap id and install it in
`m.bindings` under `var` (the `new_binding` + `*bp = b` pattern). -/
def installCell (st : St) (m : Nat) (var : Name) (bb : Binding) : St × Nat :=
  let bid := st.nextB
  let st1 := st.setB bid bb
  let st2 := st1.setMod m
    { st1.getMod m with bindings := setA (st1.getMod m).bindings var bid }
  ({ st2 with nextB := st2.nextB + 1 }, bid)

/-- `jl_get_binding_wr`: resolve for assignment.  A foreign-owned local cell
with `alloc` raises; an ownerless cell is claimed (`owner := self`); an
absent cell is created canonical when `alloc`. -/
def jl_get_binding_wr (st : St) (m : Nat) (var : Name) (alloc : Bool) :
    St × Except Err (Option Nat) :=
  match lookupA (st.getMod m).bindings var with
  | some bid =>
    let b := st.getB bid
    if b.owner ≠ some bid then
      if b.owner = none then
        (st.setB bid { b with owner := some bid }, .ok (some bid))
      else if alloc then
        (st, .error (.cannotAssignImported m var))
      else (st, .ok (some bid))
    else (st, .ok (some bid))
  | none =>
    if alloc then
      let r := installCell st m var { new_binding m var with owner := some st.nextB }
      (r.1, .ok (some r.2))
    else (st, .ok none)

/-- `jl_get_binding_for_method_def`: like `jl_get_binding_wr` but a local
alias of a foreign owner returns that owner, raising unless the cell was
explicitly imported or the owner is a constant bound to a type. -/
def jl_get_binding_for_method_def (st : St) (m : Nat) (var : Name) :
    St × Except Err Nat :=
  match lookupA (st.getMod m).bindings var with
  | some bid =>
    let b := st.getB bid
    match b.owner with
    | none => (st.setB bid { b with owner := some bid }, .ok bid)
    | some b2 =>
      if b2 = bid then (st, .ok bid)
      else if !b.imported &&
          (!(st.getB b2).constp ||
            !(match (st.getB b2).value with
              | some v => jl_is_type v
              | none => false)) then
        (st, .error (.mustExplicitlyImport m var))
      else (st, .ok b2)
  | none =>
    let r := installCell st m var { new_binding m var with owner := some st.nextB }
    (r.1, .ok r.2)

/-- The under-lock section of `module_import_`: examine `to.bindings[asname]`
and install / upgrade / reject the alias of the resolved binding `b`. -/
def import_table (st1 : St) (toM fromM : Nat) (b : Nat) (asname s : Name)
    (explici : Bool) : St × Except Err Unit :=
  match lookupA (st1.getMod toM).bindings asname with
  | some bto =>
    if bto = b then (st1, .ok ())
    else if eq_bindings st1 bto b then
      (st1.setB bto { st1.getB bto with imported := explici }, .ok ())
    else if (st1.getB bto).owner ≠ some b ∧ (st1.getB bto).owner ≠ none then
      (st1.addWarn (.conflictingImport fromM s toM), .ok ())
    else if (st1.getB bto).constp = true ∨ (st1.getB bto).value ≠ none then
      (st1.addWarn (.conflictsExisting fromM s toM), .ok ())
    else
      (st1.setB bto
        { st1.getB bto with owner := (st1.getB b).owner, imported := explici },
       .ok ())
  | none =>
    ((installCell st1 toM asname
       { new_binding toM asname with
         owner := some b, imported := explici,
         deprecated := (st1.getB b).deprecated }).1, .ok ())

/-- `jl_get_binding_if_bound`: own-table lookup following the owner pointer,
no `usings` search and no materialization. -/
def jl_get_binding_if_bound (st : St) (m : Nat) (var : Name) : Option Nat :=
  match jl_get_module_binding st m var with
  | some bid => (st.getB bid).owner
  | none => none

mutual

/-- `jl_resolve_owner`: get binding for reading; `none` for unbound.  The
stack `stk` of `(module, name)` frames is the cycle detector.  Every call
consumes one unit of fuel; `fuelOut` marks a recursion the C code has not
yet finished. -/
def jl_resolve_owner (fuel : Nat) (b0 : Option Nat) (st : St) (m : Nat) (var : Name)
    (stk : List (Nat × Name)) : St × Except Err (Option Nat) :=
  match fuel with
  | 0 => (st, .error .fuelOut)
  | fuel + 1 =>
    let ob : Option Nat :=
      match b0 with
      | some bid => (st.getB bid).owner
      | none => jl_get_binding_if_bound st m var
    match ob with
    | some b2 => (st, .ok (some b2))
    | none =>
      if (m, var) ∈ stk then (st, .ok none)
      else
        match using_resolve_binding fuel st m var ((m, var) :: stk) true with
        | (st1, .error e) => (st1, .error e)
        | (st1, .ok none) => (st1, .ok none)
        | (st1, .ok (some (b, fromM))) =>
          match module_import_ fuel st1 m fromM (some b) var var false with
          | (st2, .error e) => (st2, .error e)
          | (st2, .ok _) => (st2, .ok (some b))

/-- `using_resolve_binding`: search `m.usings` from last to first. -/
def using_resolve_binding (fuel : Nat) (st : St) (m : Nat) (var : Name)
    (stk : List (Nat × Name)) (warn : Bool) : St × Except Err (Option (Nat × Nat)) :=
  match fuel with
  | 0 => (st, .error .fuelOut)
  | fuel + 1 => usb_loop fuel st m var ((st.getMod m).usings.reverse) none stk warn

/-- The body of `using_resolve_binding`'s loop; `acc` carries the current
candidate `(b, owner)` pair (both are set together in the C code). -/
def usb_loop (fuel : Nat) (st : St) (m : Nat) (var : Name) (l : List Nat)
    (acc : Option (Nat × Nat)) (stk : List (Nat × Name)) (warn : Bool) :
    St × Except Err (Option (Nat × Nat)) :=
  match fuel with
  | 0 => (st, .error .fuelOut)
  | fuel + 1 =>
    match l with
    | [] => (st, .ok acc)
    | imp :: rest =>
      match jl_get_module_binding st imp var with
      | none => usb_loop fuel st m var rest acc stk warn
      | some tb =>
        if (st.getB tb).exportp then
          match jl_resolve_owner fuel none st imp var stk with
          | (st1, .error e) => (st1, .error e)
          | (st1, .ok none) => usb_loop fuel st1 m var rest acc stk warn
          | (st1, .ok (some c)) =>
            match acc with
            | some (b, ownerM) =>
              if (st1.getB c).deprecated = 0 ∧ (st1.getB b).deprecated = 0 ∧
                  ¬ eq_bindings st1 c b = true then
                if warn then
                  match jl_get_binding_wr st1 m var true with
                  | (st2, .error e) => (st2, .error e)
                  | (st2, .ok _) =>
                    (st2.addWarn (.mustBeQualified ownerM imp var m), .ok none)
                else (st1, .ok none)
              else
                usb_loop fuel st1 m var rest
                  (if (st1.getB c).deprecated = 0 then some (c, imp) else some (b, ownerM))
                  stk warn
            | none => usb_loop fuel st1 m var rest (some (c, imp)) stk warn
        else usb_loop fuel st m var rest acc stk warn

/-- `module_import_`: the back end of `import` / `using`-caching.  `ob` is
the already-resolved source binding (or `none` when resolution failed). -/
def module_import_ (fuel : Nat) (st : St) (toM fromM : Nat) (ob : Option Nat)
    (asname s : Name) (explici : Bool) : St × Except Err Unit :=
  match fuel with
  | 0 => (st, .error .fuelOut)
  | fuel + 1 =>
    match ob with
    | none => (st.addWarn (.couldNotImport fromM s toM), .ok ())
    | some b =>
      let pre : St × Except Err Bool :=
        if (st.getB b).deprecated ≠ 0 then
          if (match (st.getB b).value with
              | some v => isNothingV v
              | none => false) then
            (st, .ok false)
          else if st.mainM ≠ some toM ∧ st.baseM ≠ some toM ∧ st.depwarn ≠ 0 then
            match jl_binding_dep_message fuel
                (st.addWarn (.deprecatedImport fromM s toM)) fromM s b with
            | (st1, .error e) => (st1, .error e)
            | (st1, .ok _) => (st1, .ok true)
          else (st, .ok true)
        else (st, .ok true)
      match pre with
      | (st1, .error e) => (st1, .error e)
      | (st1, .ok false) => (st1, .ok ())
      | (st1, .ok true) => import_table st1 toM fromM b asname s explici

/-- `jl_binding_dep_message`: looks up `_dep_message_<name>` (a full
resolution, which may materialize cells) and prints the deprecation hint,
modelled as a `depMessage` event. -/
def jl_binding_dep_message (fuel : Nat) (st : St) (m : Nat) (name : Name) (b : Nat) :
    St × Except Err Unit :=
  match fuel with
  | 0 => (st, .error .fuelOut)
  | fuel + 1 =>
    match jl_resolve_owner fuel none st m ("_dep_message_" ++ name) [] with
    | (st1, .error e) => (st1, .error e)
    | (st1, .ok _) => (st1.addWarn (.depMessage m name), .ok ())

end

/-- `jl_get_binding`: resolve for reading with an empty cycle stack. -/
def jl_get_binding (fuel : Nat) (st : St) (m : Nat) (var : Name) :
    St × Except Err (Option Nat) :=
  jl_resolve_owner fuel none st m var []

/-- `jl_boundp`: does `m.var` resolve to a binding with a value? -/
def jl_boundp (fuel : Nat) (st : St) (m : Nat) (var : Name) :
    St × Except Err Bool :=
  match jl_get_binding fuel st m var with
  | (st1, .error e) => (st1, .error e)
  | (st1, .ok ob) =>
    (st1, .ok (match ob with
               | some b => ((st1.getB b).value).isSome
               | none => false))

/-- `jl_binding_deprecation_warning`: warn (and raise in depwarn-error mode)
on use of a binding with `deprecated == 1`. -/
def jl_binding_deprecation_warning (fuel : Nat) (st : St) (m : Nat) (s : Name) (b : Nat) :
    St × Except Err Unit :=
  if (st.getB b).deprecated = 1 ∧ st.depwarn ≠ 0 then
    match jl_binding_dep_message fuel (st.addWarn (.deprecatedUse m s)) m s b with
    | (st1, .error e) => (st1, .error e)
    | (st1, .ok _) =>
      if st.depwarn = 2 then (st1, .error (.deprecatedUseErr m s)) else (st1, .ok ())
  else (st, .ok ())

/-- `jl_get_global`: resolve and read the value, warning on deprecation. -/
def jl_get_global (fuel : Nat) (st : St) (m : Nat) (var : Name) :
    St × Except Err (Option Val) :=
  match jl_get_binding fuel st m var with
  | (st1, .error e) => (st1, .error e)
  | (st1, .ok none) => (st1, .ok none)
  | (st1, .ok (some b)) =>
    if (st1.getB b).deprecated ≠ 0 then
      match jl_binding_deprecation_warning fuel st1 m var b with
      | (st2, .error e) => (st2, .error e)
      | (st2, .ok _) => (st2, .ok ((st2.getB b).value))
    else (st1, .ok ((st1.getB b).value))

/-- The tail of `jl_checked_assignment` after the declared-type check:
the constant-redefinition gate and the final store. -/
def ca_store (st : St) (b : Nat) (modM : Nat) (var : Name) (rhs : Val) :
    St × Except Err Unit :=
  if (st.getB b).constp then
    match (st.getB b).value with
    | none => (st.setB b { st.getB b with value := some rhs }, .ok ())
    | some old =>
      if jl_egal rhs old then (st, .ok ())
      else if typeofV rhs ≠ typeofV old ∨ jl_is_type rhs = true ∨ jl_is_module rhs = true then
        (st, .error (.constantRedefinition var))
      else
        ((st.addWarn (.constRedef modM var)).setB b { st.getB b with value := some rhs },
         .ok ())
  else (st.setB b { st.getB b with value := some rhs }, .ok ())

/-- `jl_checked_assignment`: publish the declared type (compare-and-swap
NULL → Any), enforce it, then apply the constant gate and store. -/
def jl_checked_assignment (st : St) (b : Nat) (modM : Nat) (var : Name) (rhs : Val) :
    St × Except Err Unit :=
  match (st.getB b).ty with
  | none => ca_store (st.setB b { st.getB b with ty := some .anyT }) b modM var rhs
  | some oldTy =>
    if oldTy ≠ DeclTy.anyT ∧ isaD rhs oldTy = false then
      (st, .error (.typeMismatch modM var))
    else ca_store st b modM var rhs

/-- `jl_declare_constant`: legal only on a self-owned cell with no value or
already constant. -/
def jl_declare_constant (st : St) (b : Nat) (var : Name) : St × Except Err Unit :=
  let bb := st.getB b
  if bb.owner ≠ some b ∨ (bb.value ≠ none ∧ bb.constp = false) then
    (st, .error (.constantRedeclaration var))
  else (st.setB b { bb with constp := true }, .ok ())

/-- `jl_set_global`: `jl_get_binding_wr(m, var, 1)` then checked assignment. -/
def jl_set_global (st : St) (m : Nat) (var : Name) (val : Val) : St × Except Err Unit :=
  match jl_get_binding_wr st m var true with
  | (st1, .error e) => (st1, .error e)
  | (st1, .ok none) => (st1, .error (.undefinedVar var))
  | (st1, .ok (some b)) => jl_checked_assignment st1 b m var val

/-- `jl_set_const`: get-or-create the cell for assignment; if it has no value
yet, publish `Any` as its type, set `constp`, and store the value — raising
`invalid redefinition of constant` whenever the cell already has a value or
was already constant.  (The `.ok none` arm is unreachable: `alloc = true`
always yields a cell.) -/
def jl_set_const (st : St) (m : Nat) (var : Name) (val : Val) : St × Except Err Unit :=
  match jl_get_binding_wr st m var true with
  | (st1, .error e) => (st1, .error e)
  | (st1, .ok none) => (st1, .error (.constantRedefinition var))
  | (st1, .ok (some b)) =>
    let bb := st1.getB b
    if bb.value = none then
      let bb1 := { bb with ty := (match bb.ty with
                                  | none => some DeclTy.anyT
                                  | some t => some t) }
      if bb1.constp then (st1.setB b { bb1 with constp := true }, .error (.constantRedefinition var))
      else (st1.setB b { bb1 with constp := true, value := some val }, .ok ())
    else (st1, .error (.constantRedefinition var))

/-- `jl_module_export`: ensure a cell exists (an ownerless placeholder when
absent) and set `exportp`. -/
def jl_module_export (st : St) (fromM : Nat) (s : Name) : St :=
  match lookupA (st.getMod fromM).bindings s with
  | some bid => st.setB bid { st.getB bid with exportp := true }
  | none =>
    (installCell st fromM s { new_binding fromM s with exportp := true }).1

/-- The conflict scan of `jl_module_using` over `from`'s binding table. -/
def using_scan (fuel : Nat) (st : St) (toM fromM : Nat) :
    List (Name × Nat) → St × Except Err Unit
  | [] => (st, .ok ())
  | (var, bid) :: rest =>
    let b := st.getB bid
    if b.exportp = true ∧ (b.owner = some bid ∨ b.imported = true) then
      match lookupA (st.getMod toM).bindings var with
      | some tob =>
        if (st.getB tob).owner ≠ none ∧ var ≠ (st.getMod toM).mname then
          match jl_get_binding fuel st toM var with
          | (st1, .error e) => (st1, .error e)
          | (st1, .ok r) =>
            if (match r with
                | some g => !(eq_bindings st1 g bid)
                | none => false) then
              using_scan fuel (st1.addWarn (.usingConflict fromM var toM)) toM fromM rest
            else using_scan fuel st1 toM fromM rest
        else using_scan fuel st toM fromM rest
      | none => using_scan fuel st toM fromM rest
    else using_scan fuel st toM fromM rest

/-- `jl_module_using`: refuse self-`using` silently, refuse duplicates,
warn about conflicts, then append the edge. -/
def jl_module_using (fuel : Nat) (st : St) (toM fromM : Nat) : St × Except Err Unit :=
  if toM = fromM then (st, .ok ())
  else if fromM ∈ (st.getMod toM).usings then (st, .ok ())
  else
    match using_scan fuel st toM fromM ((st.getMod fromM).bindings) with
    | (st1, .error e) => (st1, .error e)
    | (st1, .ok _) =>
      (st1.setMod toM
        { st1.getMod toM with usings := (st1.getMod toM).usings ++ [fromM] }, .ok ())

/-- `jl_deprecate_binding`: resolve (possibly through `using`/import) and
set the `deprecated` flag on the binding found. -/
def jl_deprecate_binding (fuel : Nat) (st : St) (m : Nat) (var : Name) (flag : Nat) :
    St × Except Err Unit :=
  match jl_get_binding fuel st m var with
  | (st1, .error e) => (st1, .error e)
  | (st1, .ok none) => (st1, .ok ())
  | (st1, .ok (some b)) => (st1.setB b { st1.getB b with deprecated := flag }, .ok ())

/-- `jl_is_const`. -/
def jl_is_const (fuel : Nat) (st : St) (m : Nat) (var : Name) : St × Except Err Bool :=
  match jl_get_binding fuel st m var with
  | (st1, .error e) => (st1, .error e)
  | (st1, .ok ob) =>
    (st1, .ok (match ob with
               | some b => (st1.getB b).constp
               | none => false))

/-- The exported cell a `using`-search step considers in module `imp`
(a lookup in `imp.bindings` that is present and `exportp`). -/
def candFor (st : St) (v : Name) (imp : Nat) : Option Nat :=
  match lookupA (st.getMod imp).bindings v with
  | some c => if (st.getB c).exportp then some c else none
  | none => none

/-- Read-only rendition of the candidate scan of `using_resolve_binding`,
valid when every exported candidate cell is already canonical: `true` iff
walking `l` with current candidate `acc` reaches two candidate bindings that
are both non-deprecated and not `eq_bindings`-equal. -/
def ambScan (st : St) (v : Name) : List Nat → Option Nat → Bool
  | [], _ => false
  | imp :: rest, acc =>
    match candFor st v imp with
    | none => ambScan st v rest acc
    | some c =>
      match acc with
      | none => ambScan st v rest (some c)
      | some b0 =>
        if (st.getB c).deprecated = 0 ∧ (st.getB b0).deprecated = 0 ∧
            ¬ eq_bindings st c b0 = true then true
        else ambScan st v rest (if (st.getB c).deprecated = 0 then some c else some b0)

/-- Every exported cell for `v` in `imp`'s table is canonical (its owner is
itself), so recursively resolving such a candidate is a pure fast path. -/
def candCanon (st : St) (v : Name) (imp : Nat) : Prop :=
  ∀ c, lookupA (st.getMod imp).bindings v = some c →
    (st.getB c).exportp = true → (st.getB c).owner = some c

instance (st : St) (v : Name) (imp : Nat) : Decidable (candCanon st v imp) :=
  match hlk : lookupA (st.getMod imp).bindings v with
  | none => isTrue (by intro c hc; rw [hlk] at hc; cases hc)
  | some c0 =>
    decidable_of_iff ((st.getB c0).exportp = true → (st.getB c0).owner = some c0)
      (by
        constructor
        · intro h c hc
          rw [hlk] at hc
          cases hc
          exact h
        · intro h
          exact h c0 hlk)

/-- An owner pointer is sound: unset, or pointing at a canonical binding. -/
def canonOwner (st : St) : Option Nat → Prop
  | none => True
  | some b2 => (st.getB b2).owner = some b2

instance (st : St) (o : Option Nat) : Decidable (canonOwner st o) :=
  match o with
  | none => .isTrue trivial
  | some b2 => inferInstanceAs (Decidable ((st.getB b2).owner = some b2))

/-- Well-formedness of a state: heap keys and module table cells are below
the allocation counter, and owner chains are one hop (every owner pointer
points at a canonical binding): invariants 1–3 of the spec's data model. -/
def WF (st : St) : Prop :=
  (∀ p ∈ st.heap, p.1 < st.nextB) ∧
  (∀ p ∈ st.mods, ∀ q ∈ p.2.bindings, q.2 < st.nextB) ∧
  (∀ bid, bid < st.nextB → canonOwner st ((st.getB bid).owner))

/-- Owner pointers are monotone across an operation: once set, never
changed. -/
def ownMono (st st' : St) : Prop :=
  ∀ k x, (st.getB k).owner = some x → (st'.getB k).owner = some x

instance (st : St) : Decidable (WF st) := by
  unfold WF; infer_instance

instance {ε α : Type} [DecidableEq ε] [DecidableEq α] : DecidableEq (Except ε α) := by
  intro a b
  cases a <;> cases b
  case ok.ok x y => exact decidable_of_iff (x = y) (by simp)
  case error.error x y => exact decidable_of_iff (x = y) (by simp)
  all_goals exact isFalse (by intro h; cases h)

/-! ### Concrete states used by the witness theorems -/

/-- `1` boxed as a host value. -/
def vx1 : Val := ⟨10, .kint 1⟩

/-- `2` boxed as a host value (a different object of the same type). -/
def vx2 : Val := ⟨11, .kint 2⟩

/-- Constant, exported, canonical binding of module `A = 1` for `"x"`. -/
def bA : Binding := { new_binding 1 "x" with
  owner := some 0
  value := some vx1
  constp := true
  exportp := true
  ty := some .anyT }

/-- Constant, exported, canonical binding of module `B = 2` for `"x"`. -/
def bB : Binding := { new_binding 2 "x" with
  owner := some 1
  value := some vx2
  constp := true
  exportp := true
  ty := some .anyT }

/-- Scenario 8.1 of the spec: `A` and `B` both export a constant `"x"`, and
`U = 3` does `using A` then `using B`. -/
def stAmb : St :=
  { mods := [(1, ⟨"A", [("x", 0)], []⟩), (2, ⟨"B", [("x", 1)], []⟩), (3, ⟨"U", [], [1, 2]⟩)],
    heap := [(0, bA), (1, bB)],
    nextB := 2, warns := [], mainM := none, baseM := none, depwarn := 1 }

/-- A module `U = 3` whose cell for `"x"` aliases the foreign canonical
binding `0` owned by `A = 1` (the result of an implicit import). -/
def stMD : St :=
  { mods := [(1, ⟨"A", [("x", 0)], []⟩), (3, ⟨"U", [("x", 1)], []⟩)],
    heap := [(0, bA), (1, { new_binding 3 "x" with owner := some 0 })],
    nextB := 2, warns := [], mainM := none, baseM := none, depwarn := 1 }

/-- An empty module `M = 1`. -/
def stFresh : St :=
  { mods := [(1, ⟨"M", [], []⟩)], heap := [], nextB := 0, warns := [],
    mainM := none, baseM := none, depwarn := 1 }

/-- Mutual `using` cycle: `A = 1` uses `B = 2` and `B` uses `A`, with
exported but unresolvable placeholder cells for `"z"` in both. -/
def stCyc : St :=
  { mods := [(1, ⟨"A", [("z", 0)], [2]⟩), (2, ⟨"B", [("z", 1)], [1]⟩)],
    heap := [(0, { new_binding 1 "z" with exportp := true }),
             (1, { new_binding 2 "z" with exportp := true })],
    nextB := 2, warns := [], mainM := none, baseM := none, depwarn := 1 }

/-! ### Association-list and state-access lemmas -/

theorem lookupA_setA_same {κ α : Type} [DecidableEq κ] (l : List (κ × α)) (k : κ) (a : α) :
    lookupA (setA l k a) k = some a := by
  induction l with
  | nil => simp [setA, lookupA]
  | cons p t ih =>
    obtain ⟨k', a'⟩ := p
    by_cases h : k' = k
    · simp [setA, h, lookupA]
    · simp [setA, h, lookupA, ih]

theorem lookupA_setA_ne {κ α : Type} [DecidableEq κ] (l : List (κ × α)) {k k' : κ} (a : α)
    (h : k' ≠ k) : lookupA (setA l k a) k' = lookupA l k' := by
  induction l with
  | nil => simp [setA, lookupA, Ne.symm h]
  | cons p t ih =>
    obtain ⟨k0, a0⟩ := p
    by_cases h0 : k0 = k
    · subst h0
      simp only [setA, if_pos rfl, lookupA, if_neg (Ne.symm h)]
    · simp only [setA, if_neg h0, lookupA]
      rw [ih]

theorem mem_setA {κ α : Type} [DecidableEq κ] {l : List (κ × α)} {k : κ} {a : α} :
    ∀ p ∈ setA l k a, p = (k, a) ∨ p ∈ l := by
  induction l with
  | nil => intro p hp; simp [setA] at hp; simp [hp]
  | cons q t ih =>
    obtain ⟨k0, a0⟩ := q
    intro p hp
    by_cases h0 : k0 = k
    · simp [setA, h0] at hp
      rcases hp with h | h
      · simp [h]
      · simp [h]
    · simp [setA, h0] at hp
      rcases hp with h | h
      · simp [h]
      · rcases ih p h with h' | h'
        · simp [h']
        · simp [h']

theorem lookupA_ge_none {α : Type} {l : List (Nat × α)} {n k : Nat}
    (hb : ∀ p ∈ l, p.1 < n) (hk : n ≤ k) : lookupA l k = none := by
  induction l with
  | nil => rfl
  | cons p t ih =>
    obtain ⟨k0, a0⟩ := p
    have h0 : k0 < n := hb (k0, a0) (by simp)
    have : k0 ≠ k := by omega
    simp only [lookupA, if_neg this]
    exact ih (fun q hq => hb q (by simp [hq]))

theorem getB_setB_same (st : St) (k : Nat) (bb : Binding) :
    (st.setB k bb).getB k = bb := by
  simp [St.getB, St.setB, lookupA_setA_same]

theorem getB_setB_ne (st : St) {k k' : Nat} (bb : Binding) (h : k' ≠ k) :
    (st.setB k bb).getB k' = st.getB k' := by
  simp [St.getB, St.setB, lookupA_setA_ne _ _ h]

theorem getMod_setB (st : St) (k : Nat) (bb : Binding) (m : Nat) :
    (st.setB k bb).getMod m = st.getMod m := rfl

theorem getB_setMod (st : St) (m : Nat) (mm : JModule) (k : Nat) :
    (st.setMod m mm).getB k = st.getB k := rfl

theorem getB_addWarn (st : St) (w : Warn) (k : Nat) :
    (st.addWarn w).getB k = st.getB k := rfl

theorem getMod_addWarn (st : St) (w : Warn) (m : Nat) :
    (st.addWarn w).getMod m = st.getMod m := rfl

theorem getMod_setMod_same (st : St) (m : Nat) (mm : JModule) :
    (st.setMod m mm).getMod m = mm := by
  simp [St.getMod, St.setMod, lookupA_setA_same]

theorem getMod_setMod_ne (st : St) {m m' : Nat} (mm : JModule) (h : m' ≠ m) :
    (st.setMod m mm).getMod m' = st.getMod m' := by
  simp [St.getMod, St.setMod, lookupA_setA_ne _ _ h]

theorem getB_fresh {st : St} (hb : ∀ p ∈ st.heap, p.1 < st.nextB) {k : Nat}
    (hk : st.nextB ≤ k) : st.getB k = defaultBinding := by
  simp [St.getB, lookupA_ge_none hb hk]

/-! ### Well-formedness and owner-monotonicity machinery -/

theorem WF_getB_owner {st : St} (hwf : WF st) {bid b2 : Nat}
    (h : (st.getB bid).owner = some b2) : (st.getB b2).owner = some b2 := by
  by_cases hb : bid < st.nextB
  · have := hwf.2.2 bid hb
    rw [h] at this
    exact this
  · rw [getB_fresh hwf.1 (by omega)] at h
    cases h

theorem lookupA_mem {κ α : Type} [DecidableEq κ] {l : List (κ × α)} {k : κ} {a : α}
    (h : lookupA l k = some a) : (k, a) ∈ l := by
  induction l with
  | nil => cases h
  | cons p t ih =>
    obtain ⟨k0, a0⟩ := p
    by_cases h0 : k0 = k
    · subst h0
      simp only [lookupA, if_pos rfl] at h
      cases h
      simp
    · simp only [lookupA, if_neg h0] at h
      simp [ih h]

/-- Ids stored in any module's binding table are below the allocator. -/
theorem cell_lt_nextB {st : St} (hwf : WF st) {m : Nat} {var : Name} {c : Nat}
    (h : lookupA (st.getMod m).bindings var = some c) : c < st.nextB := by
  unfold St.getMod at h
  cases hm : lookupA st.mods m with
  | none => rw [hm] at h; cases h
  | some mm =>
    rw [hm] at h
    exact hwf.2.1 (m, mm) (lookupA_mem hm) (var, c) (lookupA_mem h)

/-- Case split on whether a module id is present in the module table. -/
theorem getMod_cases (st : St) (m : Nat) :
    st.getMod m = emptyModule ∨ (m, st.getMod m) ∈ st.mods := by
  cases hm : lookupA st.mods m with
  | none => left; simp [St.getMod, hm]
  | some mm =>
    right
    have : st.getMod m = mm := by simp [St.getMod, hm]
    rw [this]
    exact lookupA_mem hm

/-- Updating a cell below the allocator preserves `WF`, provided the old
owner was unset or unchanged, and the new owner is unset, self, or a
canonical binding. -/
theorem WF_setB_gen {st : St} (hwf : WF st) {k : Nat} {bb : Binding} (hk : k < st.nextB)
    (hold : (st.getB k).owner = none ∨ bb.owner = (st.getB k).owner)
    (hnew : bb.owner = none ∨ bb.owner = some k ∨
      ∃ b, b ≠ k ∧ bb.owner = some b ∧ (st.getB b).owner = some b) :
    WF (st.setB k bb) := by
  refine ⟨?_, ?_, ?_⟩
  · intro p hp
    have hp' : p ∈ setA st.heap k bb := hp
    rcases mem_setA p hp' with h | h
    · rw [h]; exact hk
    · exact hwf.1 p h
  · exact hwf.2.1
  · intro bid hbid
    by_cases hbk : bid = k
    · rw [hbk, getB_setB_same]
      rcases hnew with h | h | ⟨b, hbne, h, hcan⟩
      · rw [h]; trivial
      · rw [h]
        show ((st.setB k bb).getB k).owner = some k
        rw [getB_setB_same, h]
      · rw [h]
        show ((st.setB k bb).getB b).owner = some b
        rw [getB_setB_ne _ _ hbne]
        exact hcan
    · rw [getB_setB_ne _ _ hbk]
      cases ho : (st.getB bid).owner with
      | none => trivial
      | some b2 =>
        have hcan2 : (st.getB b2).owner = some b2 := WF_getB_owner hwf ho
        show ((st.setB k bb).getB b2).owner = some b2
        by_cases hb2k : b2 = k
        · rcases hold with h | h
          · rw [hb2k, h] at hcan2; cases hcan2
          · rw [hb2k, getB_setB_same, h, ← hb2k, hcan2, hb2k]
        · rw [getB_setB_ne _ _ hb2k]
          exact hcan2

/-- Installing a fresh cell preserves `WF`, provided its owner is unset,
itself, or a canonical binding. -/
theorem WF_installCell {st : St} (hwf : WF st) {m : Nat} {var : Name} {bb : Binding}
    (hnew : bb.owner = none ∨ bb.owner = some st.nextB ∨
      ∃ b, bb.owner = some b ∧ (st.getB b).owner = some b) :
    WF (installCell st m var bb).1 := by
  have hfresh : st.getB st.nextB = defaultBinding := getB_fresh hwf.1 le_rfl
  have hgb : ∀ j, (installCell st m var bb).1.getB j = (st.setB st.nextB bb).getB j :=
    fun _ => rfl
  have hnx : (installCell st m var bb).1.nextB = st.nextB + 1 := rfl
  refine ⟨?_, ?_, ?_⟩
  · intro p hp
    rw [hnx]
    have hp' : p ∈ setA st.heap st.nextB bb := hp
    rcases mem_setA p hp' with h | h
    · rw [h]; exact Nat.lt_succ_self _
    · exact Nat.lt_succ_of_lt (hwf.1 p h)
  · intro p hp q hq
    rw [hnx]
    have hp' : p ∈ setA st.mods m
        { st.getMod m with bindings := setA (st.getMod m).bindings var st.nextB } := hp
    rcases mem_setA p hp' with h | h
    · rw [h] at hq
      have hq' : q ∈ setA (st.getMod m).bindings var st.nextB := hq
      rcases mem_setA q hq' with h' | h'
      · rw [h']; exact Nat.lt_succ_self _
      · rcases getMod_cases st m with he | hm
        · rw [he] at h'
          simp [emptyModule] at h'
        · exact Nat.lt_succ_of_lt (hwf.2.1 _ hm q h')
    · exact Nat.lt_succ_of_lt (hwf.2.1 p h q hq)
  · intro bid hbid
    rw [hnx] at hbid
    by_cases hbk : bid = st.nextB
    · rw [hgb, hbk, getB_setB_same]
      rcases hnew with h | h | ⟨b, h, hcan⟩
      · rw [h]; trivial
      · rw [h]
        show ((installCell st m var bb).1.getB st.nextB).owner = some st.nextB
        rw [hgb, getB_setB_same, h]
      · rw [h]
        show ((installCell st m var bb).1.getB b).owner = some b
        by_cases hbn : b = st.nextB
        · rw [hbn, hfresh] at hcan
          exact absurd hcan (by simp [defaultBinding, new_binding])
        · rw [hgb, getB_setB_ne _ _ hbn]
          exact hcan
    · rw [hgb, getB_setB_ne _ _ hbk]
      cases ho : (st.getB bid).owner with
      | none => trivial
      | some b2 =>
        have hcan2 : (st.getB b2).owner = some b2 := WF_getB_owner hwf ho
        show ((installCell st m var bb).1.getB b2).owner = some b2
        by_cases hb2k : b2 = st.nextB
        · rw [hb2k, hfresh] at hcan2
          exact absurd hcan2 (by simp [defaultBinding, new_binding])
        · rw [hgb, getB_setB_ne _ _ hb2k]
          exact hcan2

theorem ownMono_refl (st : St) : ownMono st st := fun _ _ h => h

theorem ownMono_trans {s1 s2 s3 : St} (h1 : ownMono s1 s2) (h2 : ownMono s2 s3) :
    ownMono s1 s3 := fun k x h => h2 k x (h1 k x h)

theorem ownMono_of_getB_eq {st st' : St} (h : ∀ k, st'.getB k = st.getB k) :
    ownMono st st' := fun k x hx => by rw [h k]; exact hx

theorem ownMono_setB {st : St} {k : Nat} {bb : Binding}
    (h : (st.getB k).owner = none ∨ bb.owner = (st.getB k).owner) :
    ownMono st (st.setB k bb) := by
  intro j x hx
  by_cases hj : j = k
  · rcases h with h | h
    · rw [hj, h] at hx; cases hx
    · rw [hj, getB_setB_same, h, ← hj]
      exact hx
  · rw [getB_setB_ne _ _ hj]
    exact hx

theorem ownMono_installCell {st : St} (hb : ∀ p ∈ st.heap, p.1 < st.nextB)
    {m : Nat} {var : Name} {bb : Binding} :
    ownMono st (installCell st m var bb).1 := by
  intro j x hx
  have hgb : (installCell st m var bb).1.getB j = (st.setB st.nextB bb).getB j := rfl
  by_cases hj : j = st.nextB
  · rw [hj, getB_fresh hb le_rfl] at hx
    exact absurd hx (by simp [defaultBinding, new_binding])
  · rw [hgb, getB_setB_ne _ _ hj]
    exact hx

/-! ### `jl_get_binding_wr` characterization -/

theorem wr_eq_canonical {st : St} {m : Nat} {var : Name} {bid : Nat} (alloc : Bool)
    (hl : lookupA (st.getMod m).bindings var = some bid)
    (ho : (st.getB bid).owner = some bid) :
    jl_get_binding_wr st m var alloc = (st, .ok (some bid)) := by
  unfold jl_get_binding_wr
  rw [hl]
  simp [ho]

theorem wr_eq_claim {st : St} {m : Nat} {var : Name} {bid : Nat} (alloc : Bool)
    (hl : lookupA (st.getMod m).bindings var = some bid)
    (ho : (st.getB bid).owner = none) :
    jl_get_binding_wr st m var alloc =
      (st.setB bid { st.getB bid with owner := some bid }, .ok (some bid)) := by
  unfold jl_get_binding_wr
  rw [hl]
  simp [ho]

theorem wr_eq_foreign_err {st : St} {m : Nat} {var : Name} {bid b2 : Nat}
    (hl : lookupA (st.getMod m).bindings var = some bid)
    (ho : (st.getB bid).owner = some b2) (hne : b2 ≠ bid) :
    jl_get_binding_wr st m var true = (st, .error (.cannotAssignImported m var)) := by
  unfold jl_get_binding_wr
  rw [hl]
  simp [ho, hne]

theorem wr_eq_fresh {st : St} {m : Nat} {var : Name}
    (hl : lookupA (st.getMod m).bindings var = none) :
    jl_get_binding_wr st m var true =
      ((installCell st m var { new_binding m var with owner := some st.nextB }).1,
       .ok (some st.nextB)) := by
  unfold jl_get_binding_wr
  rw [hl]
  rfl

theorem wr_inv {st : St} {m : Nat} {var : Name} (alloc : Bool) (hwf : WF st) :
    WF (jl_get_binding_wr st m var alloc).1 ∧
      ownMono st (jl_get_binding_wr st m var alloc).1 := by
  cases hl : lookupA (st.getMod m).bindings var with
  | some bid =>
    cases ho : (st.getB bid).owner with
    | none =>
      rw [wr_eq_claim alloc hl ho]
      constructor
      · exact WF_setB_gen hwf (cell_lt_nextB hwf hl) (Or.inl ho)
          (Or.inr (Or.inl rfl))
      · exact ownMono_setB (Or.inl ho)
    | some b2 =>
      by_cases hne : b2 = bid
      · rw [hne] at ho
        rw [wr_eq_canonical alloc hl ho]
        exact ⟨hwf, ownMono_refl st⟩
      · cases alloc with
        | true =>
          rw [wr_eq_foreign_err hl ho hne]
          exact ⟨hwf, ownMono_refl st⟩
        | false =>
          have : jl_get_binding_wr st m var false = (st, .ok (some bid)) := by
            unfold jl_get_binding_wr
            rw [hl]
            simp [ho, hne]
          rw [this]
          exact ⟨hwf, ownMono_refl st⟩
  | none =>
    cases alloc with
    | true =>
      rw [wr_eq_fresh hl]
      constructor
      · exact WF_installCell hwf (Or.inr (Or.inl rfl))
      · exact ownMono_installCell hwf.1
    | false =>
      have : jl_get_binding_wr st m var false = (st, .ok none) := by
        unfold jl_get_binding_wr
        rw [hl]
        rfl
      rw [this]
      exact ⟨hwf, ownMono_refl st⟩


/-! ### Step equations for the fuel-indexed resolver -/

theorem resolve_zero (b0 : Option Nat) (st : St) (m : Nat) (var : Name)
    (stk : List (Nat × Name)) :
    jl_resolve_owner 0 b0 st m var stk = (st, .error .fuelOut) := by
  rw [jl_resolve_owner]

theorem usb_zero (st : St) (m : Nat) (var : Name) (stk : List (Nat × Name)) (warn : Bool) :
    using_resolve_binding 0 st m var stk warn = (st, .error .fuelOut) := by
  rw [using_resolve_binding]

theorem usbloop_zero (st : St) (m : Nat) (var : Name) (l : List Nat)
    (acc : Option (Nat × Nat)) (stk : List (Nat × Name)) (warn : Bool) :
    usb_loop 0 st m var l acc stk warn = (st, .error .fuelOut) := by
  rw [usb_loop]

theorem import_zero (st : St) (toM fromM : Nat) (ob : Option Nat) (asname s : Name)
    (explici : Bool) :
    module_import_ 0 st toM fromM ob asname s explici = (st, .error .fuelOut) := by
  rw [module_import_]

theorem depmsg_zero (st : St) (m : Nat) (name : Name) (b : Nat) :
    jl_binding_dep_message 0 st m name b = (st, .error .fuelOut) := by
  rw [jl_binding_dep_message]

/-- Unfolding `jl_resolve_owner` at a successor fuel value. -/
theorem resolve_entry (f : Nat) (b0 : Option Nat) (st : St) (m : Nat) (var : Name)
    (stk : List (Nat × Name)) :
    jl_resolve_owner (f + 1) b0 st m var stk =
      (match (match b0 with
              | some bid => (st.getB bid).owner
              | none => jl_get_binding_if_bound st m var) with
       | some b2 => (st, .ok (some b2))
       | none =>
         if (m, var) ∈ stk then (st, .ok none)
         else
           match using_resolve_binding f st m var ((m, var) :: stk) true with
           | (st1, .error e) => (st1, .error e)
           | (st1, .ok none) => (st1, .ok none)
           | (st1, .ok (some (b, fromM))) =>
             match module_import_ f st1 m fromM (some b) var var false with
             | (st2, .error e) => (st2, .error e)
             | (st2, .ok _) => (st2, .ok (some b))) := by
  rw [jl_resolve_owner.eq_def]

theorem resolve_succ_hit (f : Nat) {st : St} {m : Nat} {var : Name} {b2 : Nat}
    (stk : List (Nat × Name)) (hob : jl_get_binding_if_bound st m var = some b2) :
    jl_resolve_owner (f + 1) none st m var stk = (st, .ok (some b2)) := by
  rw [resolve_entry]
  simp only [hob]

theorem resolve_succ_cyc (f : Nat) {st : St} {m : Nat} {var : Name}
    {stk : List (Nat × Name)} (hob : jl_get_binding_if_bound st m var = none)
    (hstk : (m, var) ∈ stk) :
    jl_resolve_owner (f + 1) none st m var stk = (st, .ok none) := by
  rw [resolve_entry]
  simp only [hob, if_pos hstk]

theorem resolve_succ_search (f : Nat) {st : St} {m : Nat} {var : Name}
    {stk : List (Nat × Name)} (hob : jl_get_binding_if_bound st m var = none)
    (hstk : (m, var) ∉ stk) :
    jl_resolve_owner (f + 1) none st m var stk =
      (match using_resolve_binding f st m var ((m, var) :: stk) true with
       | (st1, .error e) => (st1, .error e)
       | (st1, .ok none) => (st1, .ok none)
       | (st1, .ok (some (b, fromM))) =>
         match module_import_ f st1 m fromM (some b) var var false with
         | (st2, .error e) => (st2, .error e)
         | (st2, .ok _) => (st2, .ok (some b))) := by
  rw [resolve_entry]
  simp only [hob, if_neg hstk]

theorem usb_succ (f : Nat) (st : St) (m : Nat) (var : Name) (stk : List (Nat × Name))
    (warn : Bool) :
    using_resolve_binding (f + 1) st m var stk warn =
      usb_loop f st m var ((st.getMod m).usings.reverse) none stk warn := by
  rw [using_resolve_binding]

theorem usbloop_succ_nil (f : Nat) (st : St) (m : Nat) (var : Name)
    (acc : Option (Nat × Nat)) (stk : List (Nat × Name)) (warn : Bool) :
    usb_loop (f + 1) st m var [] acc stk warn = (st, .ok acc) := by
  rw [usb_loop]

theorem usbloop_succ_absent (f : Nat) {st : St} {m : Nat} {var : Name} {imp : Nat}
    (rest : List Nat) (acc : Option (Nat × Nat)) (stk : List (Nat × Name)) (warn : Bool)
    (hl : jl_get_module_binding st imp var = none) :
    usb_loop (f + 1) st m var (imp :: rest) acc stk warn =
      usb_loop f st m var rest acc stk warn := by
  rw [usb_loop]
  simp only [hl]

theorem usbloop_succ_noexp (f : Nat) {st : St} {m : Nat} {var : Name} {imp tb : Nat}
    (rest : List Nat) (acc : Option (Nat × Nat)) (stk : List (Nat × Name)) (warn : Bool)
    (hl : jl_get_module_binding st imp var = some tb)
    (he : (st.getB tb).exportp = false) :
    usb_loop (f + 1) st m var (imp :: rest) acc stk warn =
      usb_loop f st m var rest acc stk warn := by
  rw [usb_loop]
  simp only [hl, he]
  rfl

theorem usbloop_succ_cand (f : Nat) {st : St} {m : Nat} {var : Name} {imp tb : Nat}
    (rest : List Nat) (acc : Option (Nat × Nat)) (stk : List (Nat × Name)) (warn : Bool)
    (hl : jl_get_module_binding st imp var = some tb)
    (he : (st.getB tb).exportp = true) :
    usb_loop (f + 1) st m var (imp :: rest) acc stk warn =
      (match jl_resolve_owner f none st imp var stk with
       | (st1, .error e) => (st1, .error e)
       | (st1, .ok none) => usb_loop f st1 m var rest acc stk warn
       | (st1, .ok (some c)) =>
         match acc with
         | some (b, ownerM) =>
           if (st1.getB c).deprecated = 0 ∧ (st1.getB b).deprecated = 0 ∧
               ¬ eq_bindings st1 c b = true then
             if warn then
               match jl_get_binding_wr st1 m var true with
               | (st2, .error e) => (st2, .error e)
               | (st2, .ok _) =>
                 (st2.addWarn (.mustBeQualified ownerM imp var m), .ok none)
             else (st1, .ok none)
           else
             usb_loop f st1 m var rest
               (if (st1.getB c).deprecated = 0 then some (c, imp) else some (b, ownerM))
               stk warn
         | none => usb_loop f st1 m var rest (some (c, imp)) stk warn) := by
  rw [usb_loop]
  simp only [hl, he]
  rfl

/-- Unfolding `module_import_` at a successor fuel value. -/
theorem import_succ (f : Nat) (st : St) (toM fromM : Nat) (ob : Option Nat)
    (asname s : Name) (explici : Bool) :
    module_import_ (f + 1) st toM fromM ob asname s explici =
      (match ob with
       | none => (st.addWarn (.couldNotImport fromM s toM), .ok ())
       | some b =>
         let pre : St × Except Err Bool :=
           if (st.getB b).deprecated ≠ 0 then
             if (match (st.getB b).value with
                 | some v => isNothingV v
                 | none => false) then
               (st, .ok false)
             else if st.mainM ≠ some toM ∧ st.baseM ≠ some toM ∧ st.depwarn ≠ 0 then
               match jl_binding_dep_message f
                   (st.addWarn (.deprecatedImport fromM s toM)) fromM s b with
               | (st1, .error e) => (st1, .error e)
               | (st1, .ok _) => (st1, .ok true)
             else (st, .ok true)
           else (st, .ok true)
         match pre with
         | (st1, .error e) => (st1, .error e)
         | (st1, .ok false) => (st1, .ok ())
         | (st1, .ok true) => import_table st1 toM fromM b asname s explici) := by
  rw [module_import_.eq_def]

theorem depmsg_succ (f : Nat) (st : St) (m : Nat) (name : Name) (b : Nat) :
    jl_binding_dep_message (f + 1) st m name b =
      (match jl_resolve_owner f none st m ("_dep_message_" ++ name) [] with
       | (st1, .error e) => (st1, .error e)
       | (st1, .ok _) => (st1.addWarn (.depMessage m name), .ok ())) := by
  rw [jl_binding_dep_message]

theorem WF_addWarn {st : St} (hwf : WF st) (w : Warn) : WF (st.addWarn w) :=
  ⟨hwf.1, hwf.2.1, hwf.2.2⟩

theorem ownMono_addWarn (st : St) (w : Warn) : ownMono st (st.addWarn w) :=
  ownMono_of_getB_eq (fun _ => rfl)

/-- Updating a cell without touching its owner preserves `WF`. -/
theorem WF_setB_keepOwner {st : St} (hwf : WF st) {k : Nat} {bb : Binding}
    (hk : k < st.nextB) (ho : bb.owner = (st.getB k).owner) :
    WF (st.setB k bb) := by
  refine WF_setB_gen hwf hk (Or.inr ho) ?_
  rw [ho]
  cases hx : (st.getB k).owner with
  | none => exact Or.inl rfl
  | some x =>
    by_cases hxk : x = k
    · rw [hxk]; exact Or.inr (Or.inl rfl)
    · exact Or.inr (Or.inr ⟨x, hxk, rfl, WF_getB_owner hwf hx⟩)

theorem ifBound_canon {st : St} (hwf : WF st) {m : Nat} {var : Name} {b2 : Nat}
    (h : jl_get_binding_if_bound st m var = some b2) :
    (st.getB b2).owner = some b2 := by
  unfold jl_get_binding_if_bound at h
  cases hl : jl_get_module_binding st m var with
  | none => rw [hl] at h; cases h
  | some bid =>
    rw [hl] at h
    exact WF_getB_owner hwf h

/-- The under-lock table section of `module_import_` preserves `WF` and owner
monotonicity, given that the source binding is canonical. -/
theorem import_table_inv {st1 : St} (toM fromM : Nat) {b : Nat} (asname s : Name)
    (explici : Bool) (hwf1 : WF st1) (hbcan1 : (st1.getB b).owner = some b) :
    WF (import_table st1 toM fromM b asname s explici).1 ∧
      ownMono st1 (import_table st1 toM fromM b asname s explici).1 := by
  unfold import_table
  cases hlk : lookupA (st1.getMod toM).bindings asname with
  | some bto =>
    by_cases hbb : bto = b
    · simp only [if_pos hbb]
      exact ⟨hwf1, ownMono_refl st1⟩
    · simp only [if_neg hbb]
      by_cases heq : eq_bindings st1 bto b = true
      · simp only [heq, if_true]
        exact ⟨WF_setB_keepOwner hwf1 (cell_lt_nextB hwf1 hlk) rfl,
               ownMono_setB (Or.inr rfl)⟩
      · simp only [heq, Bool.false_eq_true, if_false]
        by_cases hcf : (st1.getB bto).owner ≠ some b ∧ (st1.getB bto).owner ≠ none
        · simp only [if_pos hcf]
          exact ⟨WF_addWarn hwf1 _, ownMono_addWarn st1 _⟩
        · simp only [if_neg hcf]
          by_cases hcv : (st1.getB bto).constp = true ∨ (st1.getB bto).value ≠ none
          · simp only [if_pos hcv]
            exact ⟨WF_addWarn hwf1 _, ownMono_addWarn st1 _⟩
          · simp only [if_neg hcv]
            have hor : (st1.getB bto).owner = some b ∨ (st1.getB bto).owner = none := by
              by_cases h1 : (st1.getB bto).owner = some b
              · exact Or.inl h1
              · by_cases h2 : (st1.getB bto).owner = none
                · exact Or.inr h2
                · exact absurd ⟨h1, h2⟩ hcf
            constructor
            · refine WF_setB_gen hwf1 (cell_lt_nextB hwf1 hlk) ?_ ?_
              · rcases hor with h | h
                · exact Or.inr (by rw [h, hbcan1])
                · exact Or.inl h
              · by_cases hbe : b = bto
                · rw [hbcan1, hbe]
                  exact Or.inr (Or.inl rfl)
                · exact Or.inr (Or.inr ⟨b, hbe, by rw [hbcan1], hbcan1⟩)
            · refine ownMono_setB ?_
              rcases hor with h | h
              · exact Or.inr (by rw [h, hbcan1])
              · exact Or.inl h
  | none =>
    constructor
    · exact WF_installCell hwf1 (Or.inr (Or.inr ⟨b, rfl, hbcan1⟩))
    · exact ownMono_installCell hwf1.1

/-- The central safety induction over the resolver's fuel: every entry point
preserves well-formedness, never changes an owner pointer that was already
set, and only ever reports canonical bindings (`b.owner == b`). -/
theorem resolver_inv : ∀ fuel : Nat,
    (∀ b0 st m var stk, WF st →
      WF (jl_resolve_owner fuel b0 st m var stk).1 ∧
      ownMono st (jl_resolve_owner fuel b0 st m var stk).1 ∧
      (∀ bid, (jl_resolve_owner fuel b0 st m var stk).2 = .ok (some bid) →
        ((jl_resolve_owner fuel b0 st m var stk).1.getB bid).owner = some bid)) ∧
    (∀ st m var stk warn, WF st →
      WF (using_resolve_binding fuel st m var stk warn).1 ∧
      ownMono st (using_resolve_binding fuel st m var stk warn).1 ∧
      (∀ bid om, (using_resolve_binding fuel st m var stk warn).2 = .ok (some (bid, om)) →
        ((using_resolve_binding fuel st m var stk warn).1.getB bid).owner = some bid)) ∧
    (∀ st m var l acc stk warn, WF st →
      (∀ c om, acc = some (c, om) → (st.getB c).owner = some c) →
      WF (usb_loop fuel st m var l acc stk warn).1 ∧
      ownMono st (usb_loop fuel st m var l acc stk warn).1 ∧
      (∀ bid om, (usb_loop fuel st m var l acc stk warn).2 = .ok (some (bid, om)) →
        ((usb_loop fuel st m var l acc stk warn).1.getB bid).owner = some bid)) ∧
    (∀ st toM fromM ob asname s explici, WF st →
      (∀ b, ob = some b → (st.getB b).owner = some b) →
      WF (module_import_ fuel st toM fromM ob asname s explici).1 ∧
      ownMono st (module_import_ fuel st toM fromM ob asname s explici).1) ∧
    (∀ st m name b, WF st →
      WF (jl_binding_dep_message fuel st m name b).1 ∧
      ownMono st (jl_binding_dep_message fuel st m name b).1) := by
  intro fuel
  induction fuel with
  | zero =>
    refine ⟨?_, ?_, ?_, ?_, ?_⟩
    · intro b0 st m var stk hwf
      rw [resolve_zero]
      exact ⟨hwf, ownMono_refl st, by intro bid h; simp at h⟩
    · intro st m var stk warn hwf
      rw [usb_zero]
      exact ⟨hwf, ownMono_refl st, by intro bid om h; simp at h⟩
    · intro st m var l acc stk warn hwf hacc
      rw [usbloop_zero]
      exact ⟨hwf, ownMono_refl st, by intro bid om h; simp at h⟩
    · intro st toM fromM ob asname s explici hwf hob
      rw [import_zero]
      exact ⟨hwf, ownMono_refl st⟩
    · intro st m name b hwf
      rw [depmsg_zero]
      exact ⟨hwf, ownMono_refl st⟩
  | succ f ih =>
    obtain ⟨ihR, ihU, ihL, ihI, ihD⟩ := ih
    have stepR : ∀ b0 st m var stk, WF st →
        WF (jl_resolve_owner (f + 1) b0 st m var stk).1 ∧
        ownMono st (jl_resolve_owner (f + 1) b0 st m var stk).1 ∧
        (∀ bid, (jl_resolve_owner (f + 1) b0 st m var stk).2 = .ok (some bid) →
          ((jl_resolve_owner (f + 1) b0 st m var stk).1.getB bid).owner = some bid) := by
      intro b0 st m var stk hwf
      rw [resolve_entry]
      cases hO : (match b0 with
                  | some bid => (st.getB bid).owner
                  | none => jl_get_binding_if_bound st m var) with
      | some b2 =>
        simp only [hO]
        refine ⟨hwf, ownMono_refl st, ?_⟩
        intro bid h
        have hb2 : b2 = bid := by simpa using h
        subst hb2
        cases b0 with
        | some bid0 => exact WF_getB_owner hwf hO
        | none => exact ifBound_canon hwf hO
      | none =>
        simp only [hO]
        by_cases hstk : (m, var) ∈ stk
        · simp only [if_pos hstk]
          exact ⟨hwf, ownMono_refl st, by intro bid h; simp at h⟩
        · simp only [if_neg hstk]
          rcases hu : using_resolve_binding f st m var ((m, var) :: stk) true with ⟨st1, r1⟩
          have Hu := ihU st m var ((m, var) :: stk) true hwf
          rw [hu] at Hu
          obtain ⟨hwf1, hmono1, hcan1⟩ := Hu
          cases r1 with
          | error e =>
            exact ⟨hwf1, hmono1, by intro bid h; simp at h⟩
          | ok o =>
            cases o with
            | none =>
              exact ⟨hwf1, hmono1, by intro bid h; simp at h⟩
            | some p =>
              obtain ⟨b, fromM⟩ := p
              have hbcan : (st1.getB b).owner = some b := hcan1 b fromM rfl
              rcases hi : module_import_ f st1 m fromM (some b) var var false with ⟨st2, r2⟩
              have Hi := ihI st1 m fromM (some b) var var false hwf1
                (by intro b' hb'; cases hb'; exact hbcan)
              rw [hi] at Hi
              obtain ⟨hwf2, hmono2⟩ := Hi
              simp only [hi]
              cases r2 with
              | error e =>
                exact ⟨hwf2, ownMono_trans hmono1 hmono2, by intro bid h; simp at h⟩
              | ok u =>
                refine ⟨hwf2, ownMono_trans hmono1 hmono2, ?_⟩
                intro bid h
                have hb : b = bid := by simpa using h
                subst hb
                exact hmono2 b b hbcan
    refine ⟨stepR, ?_, ?_, ?_, ?_⟩
    · -- using_resolve_binding
      intro st m var stk warn hwf
      rw [usb_succ]
      exact ihL st m var ((st.getMod m).usings.reverse) none stk warn hwf
        (by intro c om h; cases h)
    · -- usb_loop
      intro st m var l acc stk warn hwf hacc
      cases l with
      | nil =>
        rw [usbloop_succ_nil]
        refine ⟨hwf, ownMono_refl st, ?_⟩
        intro bid om h
        have : acc = some (bid, om) := by simpa using h
        exact hacc bid om this
      | cons imp rest =>
        cases hl : jl_get_module_binding st imp var with
        | none =>
          rw [usbloop_succ_absent f rest acc stk warn hl]
          exact ihL st m var rest acc stk warn hwf hacc
        | some tb =>
          cases he : (st.getB tb).exportp with
          | false =>
            rw [usbloop_succ_noexp f rest acc stk warn hl he]
            exact ihL st m var rest acc stk warn hwf hacc
          | true =>
            rw [usbloop_succ_cand f rest acc stk warn hl he]
            rcases hr : jl_resolve_owner f none st imp var stk with ⟨st1, r1⟩
            have Hr := ihR none st imp var stk hwf
            rw [hr] at Hr
            obtain ⟨hwf1, hmono1, hcan1⟩ := Hr
            cases r1 with
            | error e =>
              exact ⟨hwf1, hmono1, by intro bid om h; simp at h⟩
            | ok o =>
              cases o with
              | none =>
                have Hl := ihL st1 m var rest acc stk warn hwf1
                  (fun c om h => hmono1 c c (hacc c om h))
                exact ⟨Hl.1, ownMono_trans hmono1 Hl.2.1, Hl.2.2⟩
              | some c =>
                have hccan : (st1.getB c).owner = some c := hcan1 c rfl
                cases acc with
                | none =>
                  have Hl := ihL st1 m var rest (some (c, imp)) stk warn hwf1
                    (by intro c' om h
                        have : c = c' ∧ imp = om := by simpa using h
                        rw [← this.1]
                        exact hccan)
                  exact ⟨Hl.1, ownMono_trans hmono1 Hl.2.1, Hl.2.2⟩
                | some p =>
                  obtain ⟨b, ownerM⟩ := p
                  by_cases hamb : (st1.getB c).deprecated = 0 ∧ (st1.getB b).deprecated = 0 ∧
                      ¬ eq_bindings st1 c b = true
                  · simp only [if_pos hamb]
                    cases warn with
                    | false =>
                      simp only [Bool.false_eq_true, if_false]
                      exact ⟨hwf1, hmono1, by intro bid om h; simp at h⟩
                    | true =>
                      simp only [if_true]
                      rcases hw : jl_get_binding_wr st1 m var true with ⟨st2, r2⟩
                      have Hw := @wr_inv st1 m var true hwf1
                      rw [hw] at Hw
                      obtain ⟨hwf2, hmono2⟩ := Hw
                      cases r2 with
                      | error e =>
                        exact ⟨hwf2, ownMono_trans hmono1 hmono2, by intro bid om h; simp at h⟩
                      | ok u =>
                        refine ⟨WF_addWarn hwf2 _, ?_, by intro bid om h; simp at h⟩
                        exact ownMono_trans hmono1
                          (ownMono_trans hmono2 (ownMono_addWarn st2 _))
                  · simp only [if_neg hamb]
                    have Hl := ihL st1 m var rest
                      (if (st1.getB c).deprecated = 0 then some (c, imp) else some (b, ownerM))
                      stk warn hwf1
                      (by intro c' om h
                          by_cases hdep : (st1.getB c).deprecated = 0
                          · rw [if_pos hdep] at h
                            have : c = c' ∧ imp = om := by simpa using h
                            rw [← this.1]
                            exact hccan
                          · rw [if_neg hdep] at h
                            have : b = c' ∧ ownerM = om := by simpa using h
                            rw [← this.1]
                            exact hmono1 b b (hacc b ownerM rfl))
                    exact ⟨Hl.1, ownMono_trans hmono1 Hl.2.1, Hl.2.2⟩
    · -- module_import_
      intro st toM fromM ob asname s explici hwf hob
      rw [import_succ]
      cases ob with
      | none =>
        exact ⟨WF_addWarn hwf _, ownMono_addWarn st _⟩
      | some b =>
        have hbcan : (st.getB b).owner = some b := hob b rfl
        simp only []
        by_cases hdep : (st.getB b).deprecated ≠ 0
        · simp only [if_pos hdep]
          by_cases hnoth : (match (st.getB b).value with
                            | some v => isNothingV v
                            | none => false) = true
          · simp only [hnoth, if_true]
            exact ⟨hwf, ownMono_refl st⟩
          · simp only [hnoth, Bool.false_eq_true, if_false]
            by_cases hmb : st.mainM ≠ some toM ∧ st.baseM ≠ some toM ∧ st.depwarn ≠ 0
            · simp only [if_pos hmb]
              rcases hd : jl_binding_dep_message f (st.addWarn (.deprecatedImport fromM s toM))
                  fromM s b with ⟨st1, r1⟩
              have Hd := ihD (st.addWarn (.deprecatedImport fromM s toM)) fromM s b
                (WF_addWarn hwf _)
              rw [hd] at Hd
              obtain ⟨hwf1, hmono1⟩ := Hd
              have hmono1' : ownMono st st1 :=
                ownMono_trans (ownMono_addWarn st _) hmono1
              cases r1 with
              | error e => exact ⟨hwf1, hmono1'⟩
              | ok u =>
                have := import_table_inv toM fromM asname s explici hwf1
                  (hmono1' b b hbcan)
                exact ⟨this.1, ownMono_trans hmono1' this.2⟩
            · simp only [if_neg hmb]
              exact import_table_inv toM fromM asname s explici hwf hbcan
        · simp only [if_neg hdep]
          exact import_table_inv toM fromM asname s explici hwf hbcan
    · -- jl_binding_dep_message
      intro st m name b hwf
      rw [depmsg_succ]
      rcases hr : jl_resolve_owner f none st m ("_dep_message_" ++ name) [] with ⟨st1, r1⟩
      have Hr := ihR none st m ("_dep_message_" ++ name) [] hwf
      rw [hr] at Hr
      obtain ⟨hwf1, hmono1, _⟩ := Hr
      cases r1 with
      | error e => exact ⟨hwf1, hmono1⟩
      | ok u => exact ⟨WF_addWarn hwf1 _, ownMono_trans hmono1 (ownMono_addWarn st1 _)⟩

/-! ### Claim theorems -/

/-- C2: for every module `M` and name `v`, every non-null binding `b`
returned by `get_binding(M, v)` is canonical: `b.owner == b` (in the state
the call returns). -/
theorem c2_get_binding_canonical (fuel : Nat) (st : St) (m : Nat) (var : Name)
    (st' : St) (bid : Nat) (hwf : WF st)
    (h : jl_get_binding fuel st m var = (st', .ok (some bid))) :
    (st'.getB bid).owner = some bid := by
  have H := (resolver_inv fuel).1 none st m var [] hwf
  unfold jl_get_binding at h
  rw [h] at H
  exact H.2.2 bid rfl

/-- C2 witness: in `stMD`, `U.x` resolves to the canonical binding `0`. -/
theorem c2_get_binding_canonical_witness :
    WF stMD ∧ jl_get_binding 5 stMD 3 "x" = (stMD, Except.ok (some 0)) ∧
      (stMD.getB 0).owner = some 0 := by
  have he : jl_get_binding 5 stMD 3 "x" = (stMD, Except.ok (some 0)) := by
    unfold jl_get_binding
    exact resolve_succ_hit 4 [] (by decide)
  exact ⟨by decide, he, c2_get_binding_canonical 5 stMD 3 "x" stMD 0 (by decide) he⟩

/-- C3: `get_binding_wr(M, v, alloc=true)` raises `CannotAssignImported` iff
a local cell exists whose owner is a foreign binding; a cell with owner unset
is claimed (`owner := self`) and returned; with no cell, a new canonical cell
is created, registered in the table, and returned. -/
theorem c3_get_binding_wr_spec (st : St) (m : Nat) (var : Name) :
    ((∃ bid b2, lookupA (st.getMod m).bindings var = some bid ∧
        (st.getB bid).owner = some b2 ∧ b2 ≠ bid) ↔
      (jl_get_binding_wr st m var true).2 = .error (.cannotAssignImported m var)) ∧
    (∀ bid, lookupA (st.getMod m).bindings var = some bid →
      (st.getB bid).owner = none →
      jl_get_binding_wr st m var true =
        (st.setB bid { st.getB bid with owner := some bid }, .ok (some bid))) ∧
    (lookupA (st.getMod m).bindings var = none →
      (jl_get_binding_wr st m var true).2 = .ok (some st.nextB) ∧
      lookupA ((jl_get_binding_wr st m var true).1.getMod m).bindings var = some st.nextB ∧
      ((jl_get_binding_wr st m var true).1.getB st.nextB).owner = some st.nextB ∧
      ((jl_get_binding_wr st m var true).1.getB st.nextB).value = none) := by
  refine ⟨⟨?_, ?_⟩, ?_, ?_⟩
  · rintro ⟨bid, b2, hl, ho, hne⟩
    rw [wr_eq_foreign_err hl ho hne]
  · intro herr
    cases hl : lookupA (st.getMod m).bindings var with
    | some bid =>
      cases ho : (st.getB bid).owner with
      | none =>
        rw [wr_eq_claim true hl ho] at herr
        cases herr
      | some b2 =>
        by_cases hne : b2 = bid
        · rw [hne] at ho
          rw [wr_eq_canonical true hl ho] at herr
          cases herr
        · exact ⟨_, _, rfl, ho, hne⟩
    | none =>
      rw [wr_eq_fresh hl] at herr
      cases herr
  · intro bid hl ho
    exact wr_eq_claim true hl ho
  · intro hl
    rw [wr_eq_fresh hl]
    refine ⟨rfl, ?_, ?_, ?_⟩
    · show lookupA ((installCell st m var _).1.getMod m).bindings var = some st.nextB
      have : (installCell st m var { new_binding m var with owner := some st.nextB }).1.getMod m
          = { st.getMod m with
              bindings := setA (st.getMod m).bindings var st.nextB } := by
        show ((st.setB st.nextB _).setMod m _).getMod m = _
        rw [getMod_setMod_same]
        rfl
      rw [this]
      show lookupA (setA (st.getMod m).bindings var st.nextB) var = some st.nextB
      exact lookupA_setA_same _ _ _
    · show ((st.setB st.nextB _).getB st.nextB).owner = some st.nextB
      rw [getB_setB_same]
    · show ((st.setB st.nextB _).getB st.nextB).value = none
      rw [getB_setB_same]
      rfl

/-- C3 witness: in `stMD`, `U.x` is an alias cell, so write-resolution in `U`
raises `CannotAssignImported`; in module `1` of `stFresh` a fresh canonical
cell is created. -/
theorem c3_get_binding_wr_spec_witness :
    (jl_get_binding_wr stMD 3 "x" true).2 = .error (.cannotAssignImported 3 "x") ∧
      (jl_get_binding_wr stFresh 1 "v" true).2 = .ok (some 0) := by
  constructor
  · exact (c3_get_binding_wr_spec stMD 3 "x").1.mp ⟨1, 0, by decide, by decide, by decide⟩
  · exact ((c3_get_binding_wr_spec stFresh 1 "v").2.2 (by decide)).1

/-- C4: for a constant binding `b` (with declared type absent or `Any`, the
only shapes this module's operations produce), `checked_assignment` stores
into an empty cell; silently succeeds on an egal value; raises
`ConstantRedefinition` when the type changed or the new value is a type or a
module; and otherwise warns and overwrites. -/
theorem c4_checked_assignment_const (st : St) (b : Nat) (modM : Nat) (var : Name) (rhs : Val)
    (hconst : (st.getB b).constp = true)
    (hty : (st.getB b).ty = none ∨ (st.getB b).ty = some DeclTy.anyT) :
    ((st.getB b).value = none →
      (jl_checked_assignment st b modM var rhs).2 = .ok () ∧
      ((jl_checked_assignment st b modM var rhs).1.getB b).value = some rhs ∧
      (jl_checked_assignment st b modM var rhs).1.warns = st.warns) ∧
    (∀ old, (st.getB b).value = some old → jl_egal rhs old = true →
      (jl_checked_assignment st b modM var rhs).2 = .ok () ∧
      ((jl_checked_assignment st b modM var rhs).1.getB b).value = some old ∧
      (jl_checked_assignment st b modM var rhs).1.warns = st.warns) ∧
    (∀ old, (st.getB b).value = some old → jl_egal rhs old = false →
      (typeofV rhs ≠ typeofV old ∨ jl_is_type rhs = true ∨ jl_is_module rhs = true) →
      (jl_checked_assignment st b modM var rhs).2 =
        .error (.constantRedefinition var)) ∧
    (∀ old, (st.getB b).value = some old → jl_egal rhs old = false →
      typeofV rhs = typeofV old → jl_is_type rhs = false → jl_is_module rhs = false →
      (jl_checked_assignment st b modM var rhs).2 = .ok () ∧
      ((jl_checked_assignment st b modM var rhs).1.getB b).value = some rhs ∧
      (jl_checked_assignment st b modM var rhs).1.warns =
        Warn.constRedef modM var :: st.warns) := by
  have hred : ∃ st0 : St, jl_checked_assignment st b modM var rhs = ca_store st0 b modM var rhs ∧
      (st0.getB b).constp = (st.getB b).constp ∧
      (st0.getB b).value = (st.getB b).value ∧
      st0.warns = st.warns := by
    unfold jl_checked_assignment
    rcases hty with h | h
    · simp only [h]
      exact ⟨_, rfl, by rw [getB_setB_same], by rw [getB_setB_same], rfl⟩
    · simp only [h]
      have : ¬ (DeclTy.anyT ≠ DeclTy.anyT ∧ isaD rhs DeclTy.anyT = false) := by
        intro hcon
        exact hcon.1 rfl
      rw [if_neg this]
      exact ⟨st, rfl, rfl, rfl, rfl⟩
  obtain ⟨st0, heq, hc0, hv0, hw0⟩ := hred
  rw [heq]
  unfold ca_store
  rw [hc0, hconst, hv0]
  refine ⟨?_, ?_, ?_, ?_⟩
  · intro hval
    rw [hval]
    simp only [if_true]
    refine ⟨by trivial, ?_, ?_⟩
    · show ((st0.setB b _).getB b).value = some rhs
      rw [getB_setB_same]
    · show (st0.setB b _).warns = st.warns
      exact hw0
  · intro old hval hegal
    rw [hval]
    simp only [hegal, if_true]
    exact ⟨by trivial, hv0.trans hval, hw0⟩
  · intro old hval hegal hbad
    rw [hval]
    simp only [hegal, Bool.false_eq_true, if_false, if_true]
    rw [if_pos hbad]
  · intro old hval hegal hsame hnty hnmod
    rw [hval]
    simp only [hegal, Bool.false_eq_true, if_false]
    have hnbad : ¬ (typeofV rhs ≠ typeofV old ∨ jl_is_type rhs = true ∨
        jl_is_module rhs = true) := by
      intro hcon
      rcases hcon with h | h | h
      · exact h hsame
      · rw [hnty] at h; cases h
      · rw [hnmod] at h; cases h
    rw [if_neg hnbad]
    refine ⟨by trivial, ?_, ?_⟩
    · show (((st0.addWarn _).setB b _).getB b).value = some rhs
      rw [getB_setB_same]
    · show ((st0.addWarn _).setB b _).warns = Warn.constRedef modM var :: st.warns
      show Warn.constRedef modM var :: st0.warns = Warn.constRedef modM var :: st.warns
      rw [hw0]

/-- C4 witness: overwriting the constant `A.x = 1` with an egal `1` is
silent; with the string `"s"` raises; with a same-typed `2` warns and
stores. -/
theorem c4_checked_assignment_const_witness :
    (jl_checked_assignment stAmb 0 1 "x" ⟨21, .kint 1⟩).2 = .ok () ∧
    (jl_checked_assignment stAmb 0 1 "x" ⟨22, .kstr "s"⟩).2 =
      .error (.constantRedefinition "x") ∧
    (jl_checked_assignment stAmb 0 1 "x" vx2).1.warns = [Warn.constRedef 1 "x"] := by
  have H1 := c4_checked_assignment_const stAmb 0 1 "x" ⟨21, .kint 1⟩ (by decide) (by decide)
  have H2 := c4_checked_assignment_const stAmb 0 1 "x" ⟨22, .kstr "s"⟩ (by decide) (by decide)
  have H3 := c4_checked_assignment_const stAmb 0 1 "x" vx2 (by decide) (by decide)
  refine ⟨(H1.2.1 vx1 (by decide) (by decide)).1, ?_, ?_⟩
  · exact H2.2.2.1 vx1 (by decide) (by decide) (Or.inl (by decide))
  · exact (H3.2.2.2 vx1 (by decide) (by decide) (by decide) (by decide) (by decide)).2.2

/-- C6: when `M.v` is a local cell aliasing a foreign canonical owner `b2`
(whose value is set, as the code asserts), `get_binding_for_method_def`
returns `b2` if the cell is flagged imported or `b2` is a constant bound to
a type, and raises `MustExplicitlyImport` otherwise. -/
theorem c6_method_def_spec (st : St) (m : Nat) (var : Name) (bid b2 : Nat) (v : Val)
    (hl : lookupA (st.getMod m).bindings var = some bid)
    (ho : (st.getB bid).owner = some b2) (hne : b2 ≠ bid)
    (hv : (st.getB b2).value = some v) :
    (((st.getB bid).imported = true ∨ ((st.getB b2).constp = true ∧ jl_is_type v = true)) →
      jl_get_binding_for_method_def st m var = (st, .ok b2)) ∧
    (¬ ((st.getB bid).imported = true ∨ ((st.getB b2).constp = true ∧ jl_is_type v = true)) →
      jl_get_binding_for_method_def st m var =
        (st, .error (.mustExplicitlyImport m var))) := by
  have hcond : (!(st.getB bid).imported &&
      (!(st.getB b2).constp ||
        !(match (st.getB b2).value with
          | some v => jl_is_type v
          | none => false))) =
      !((st.getB bid).imported || ((st.getB b2).constp && jl_is_type v)) := by
    simp only [hv]
    cases (st.getB bid).imported <;> cases (st.getB b2).constp <;>
      cases htv : jl_is_type v <;> rfl
  constructor
  · intro hyes
    unfold jl_get_binding_for_method_def
    rw [hl]
    simp only [ho]
    rw [if_neg (fun h => hne h), hcond]
    have : ((st.getB bid).imported || ((st.getB b2).constp && jl_is_type v)) = true := by
      rcases hyes with h | ⟨h1, h2⟩
      · rw [h]; rfl
      · rw [h1, h2]; cases (st.getB bid).imported <;> rfl
    rw [this]
    rfl
  · intro hno
    unfold jl_get_binding_for_method_def
    rw [hl]
    simp only [ho]
    rw [if_neg (fun h => hne h), hcond]
    have : ((st.getB bid).imported || ((st.getB b2).constp && jl_is_type v)) = false := by
      cases hi : (st.getB bid).imported with
      | true => exact absurd (Or.inl hi) hno
      | false =>
        cases hc : (st.getB b2).constp with
        | false => rfl
        | true =>
          cases ht : jl_is_type v with
          | false => rfl
          | true => exact absurd (Or.inr ⟨hc, ht⟩) hno
    rw [this]
    rfl

/-- C6 witness: in `stMD` the alias cell is not imported and `A.x` holds an
integer, so method definition raises; flagging the cell imported returns the
owner. -/
theorem c6_method_def_spec_witness :
    jl_get_binding_for_method_def stMD 3 "x" =
      (stMD, .error (.mustExplicitlyImport 3 "x")) ∧
    jl_get_binding_for_method_def (stMD.setB 1 { stMD.getB 1 with imported := true }) 3 "x" =
      (stMD.setB 1 { stMD.getB 1 with imported := true }, .ok 0) := by
  constructor
  · exact (c6_method_def_spec stMD 3 "x" 1 0 vx1 (by decide) (by decide) (by decide)
      (by decide)).2 (by decide)
  · exact (c6_method_def_spec (stMD.setB 1 { stMD.getB 1 with imported := true })
      3 "x" 1 0 vx1 (by decide) (by decide) (by decide) (by decide)).1 (by decide)

/-- C10: `deprecate_binding(M, v, flag)` mutates the canonical binding that
`M.v` resolves to — every other binding cell (in particular `M`'s own alias
cell) is untouched — and afterwards any module whose cell for `v` aliases
that binding resolves to the flagged binding. -/
theorem c10_deprecate_canonical (fuel : Nat) (st st1 : St) (m : Nat) (v : Name)
    (bid : Nat) (flag : Nat)
    (hres : jl_get_binding fuel st m v = (st1, .ok (some bid))) :
    ∃ st2, jl_deprecate_binding fuel st m v flag = (st2, .ok ()) ∧
      (st2.getB bid).deprecated = flag ∧
      (∀ bid', bid' ≠ bid → st2.getB bid' = st1.getB bid') ∧
      (∀ f2 m2 c, lookupA (st2.getMod m2).bindings v = some c →
        (st2.getB c).owner = some bid →
        jl_get_binding (f2 + 1) st2 m2 v = (st2, .ok (some bid))) := by
  refine ⟨st1.setB bid { st1.getB bid with deprecated := flag }, ?_, ?_, ?_, ?_⟩
  · unfold jl_deprecate_binding
    rw [hres]
  · rw [getB_setB_same]
  · intro bid' hne
    exact getB_setB_ne st1 _ hne
  · intro f2 m2 c hlk hown
    apply resolve_succ_hit f2 []
    unfold jl_get_binding_if_bound jl_get_module_binding
    simp only [hlk, hown]

/-- C10 witness: deprecating `U.x` in `stMD` (where `U.x` aliases `A`'s
binding `0`) flags binding `0`, leaves `U`'s cell `1` unchanged, and `U.x`
still resolves to the flagged binding `0`. -/
theorem c10_deprecate_canonical_witness :
    ∃ st2, jl_deprecate_binding 5 stMD 3 "x" 1 = (st2, .ok ()) ∧
      (st2.getB 0).deprecated = 1 ∧ st2.getB 1 = stMD.getB 1 ∧
      jl_get_binding 3 st2 3 "x" = (st2, .ok (some 0)) := by
  have hres : jl_get_binding 5 stMD 3 "x" = (stMD, .ok (some 0)) := by
    unfold jl_get_binding
    exact resolve_succ_hit 4 [] (by decide)
  obtain ⟨st2, h1, h2, h3, h4⟩ := c10_deprecate_canonical 5 stMD stMD 3 "x" 0 1 hres
  refine ⟨st2, h1, h2, ?_, ?_⟩
  · exact h3 1 (by decide)
  · exact h4 2 3 1 (by
      have : st2 = stMD.setB 0 { stMD.getB 0 with deprecated := 1 } := by
        have := h1
        unfold jl_deprecate_binding at this
        rw [hres] at this
        exact (Prod.mk.injEq _ _ _ _ ▸ this).1.symm
      rw [this]
      decide) (by
      have : st2 = stMD.setB 0 { stMD.getB 0 with deprecated := 1 } := by
        have := h1
        unfold jl_deprecate_binding at this
        rw [hres] at this
        exact (Prod.mk.injEq _ _ _ _ ▸ this).1.symm
      rw [this]
      decide)

/-- C5 counterexample: the claim says a second `set_const(M, v, x)` with an
equal `x` "succeeds silently", but the code raises `ConstantRedefinition`
whenever the cell already holds a value — even the very same value object. -/
theorem c5_counterexample :
    jl_get_global 3 (jl_set_const stFresh 1 "c" vx1).1 1 "c" =
      ((jl_set_const stFresh 1 "c" vx1).1, .ok (some vx1)) ∧
    (jl_set_const (jl_set_const stFresh 1 "c" vx1).1 1 "c" vx1).2 =
      .error (.constantRedefinition "c") ∧
    (jl_set_const (jl_set_const stFresh 1 "c" vx1).1 1 "c" vx2).2 =
      .error (.constantRedefinition "c") := by
  refine ⟨?_, by decide, by decide⟩
  unfold jl_get_global jl_get_binding
  rw [@resolve_succ_hit 2 ((jl_set_const stFresh 1 "c" vx1).1) 1 "c" 0 [] (by decide)]
  decide

/-- C5 as amended: on a fresh name, `set_const(M, v, x)` succeeds and
`get_global(M, v)` returns `x`; but every second `set_const`, whether the
value is equal, unequal of the same type, or of a different type, raises
`ConstantRedefinition` (there is no silent success and no warning). -/
theorem c5_set_const_get_global (fuel : Nat) (st : St) (m : Nat) (var : Name) (x : Val)
    (hfresh : lookupA (st.getMod m).bindings var = none) :
    ∃ st1, jl_set_const st m var x = (st1, .ok ()) ∧
      jl_get_global (fuel + 1) st1 m var = (st1, .ok (some x)) ∧
      ∀ x', (jl_set_const st1 m var x').2 = .error (.constantRedefinition var) := by
  have hwr := wr_eq_fresh hfresh
  have hset : jl_set_const st m var x =
      ((installCell st m var { new_binding m var with owner := some st.nextB }).1.setB st.nextB
         { new_binding m var with
           owner := some st.nextB, ty := some DeclTy.anyT, constp := true, value := some x },
       .ok ()) := by
    unfold jl_set_const
    rw [hwr]
    have hget : (installCell st m var
        { new_binding m var with owner := some st.nextB }).1.getB st.nextB =
        { new_binding m var with owner := some st.nextB } := by
      show ((st.setB st.nextB _).getB st.nextB) = _
      rw [getB_setB_same]
    simp only [hget]
    rfl
  set S := (installCell st m var { new_binding m var with owner := some st.nextB }).1 with hS
  set st1 : St := S.setB st.nextB
      { new_binding m var with
        owner := some st.nextB, ty := some DeclTy.anyT, constp := true, value := some x }
    with hst1
  have hlk1 : lookupA (st1.getMod m).bindings var = some st.nextB := by
    show lookupA ((S.setB _ _).getMod m).bindings var = some st.nextB
    rw [getMod_setB]
    show lookupA (((st.setB st.nextB _).setMod m
      { (st.setB st.nextB _).getMod m with
        bindings := setA ((st.setB st.nextB _).getMod m).bindings var st.nextB }).getMod
        m).bindings var = some st.nextB
    rw [getMod_setMod_same]
    exact lookupA_setA_same _ _ _
  have hgb1 : st1.getB st.nextB =
      { new_binding m var with
        owner := some st.nextB, ty := some DeclTy.anyT, constp := true, value := some x } := by
    show (S.setB _ _).getB st.nextB = _
    rw [getB_setB_same]
  refine ⟨st1, hset, ?_, ?_⟩
  · unfold jl_get_global jl_get_binding
    rw [@resolve_succ_hit fuel st1 m var st.nextB [] (by
      unfold jl_get_binding_if_bound jl_get_module_binding
      simp only [hlk1, hgb1])]
    simp only [hgb1]
    rfl
  · intro x'
    unfold jl_set_const
    rw [wr_eq_canonical true hlk1 (by rw [hgb1])]
    simp only [hgb1]
    rfl

/-- C5 witness: the amended claim at the concrete scenario: fresh `M.c`,
value `1`. -/
theorem c5_set_const_get_global_witness :
    ∃ st1, jl_set_const stFresh 1 "c" vx1 = (st1, .ok ()) ∧
      jl_get_global 3 st1 1 "c" = (st1, .ok (some vx1)) ∧
      ∀ x', (jl_set_const st1 1 "c" x').2 = .error (.constantRedefinition "c") :=
  c5_set_const_get_global 2 stFresh 1 "c" vx1 (by decide)

/-- Resolution of a name whose local cell already has an owner is a pure
fast path: the state is unchanged (or fuel ran out, also without change). -/
theorem get_binding_fastpath (fuel : Nat) {st : St} {m : Nat} {var : Name} {tob x : Nat}
    (hl : lookupA (st.getMod m).bindings var = some tob)
    (ho : (st.getB tob).owner = some x) :
    jl_get_binding fuel st m var = (st, .error .fuelOut) ∨
    jl_get_binding fuel st m var = (st, .ok (some x)) := by
  cases fuel with
  | zero => exact Or.inl (resolve_zero none st m var [])
  | succ g =>
    right
    unfold jl_get_binding
    exact resolve_succ_hit g [] (by
      unfold jl_get_binding_if_bound jl_get_module_binding
      simp only [hl, ho])

theorem getMod_eq_of_mods {st st' : St} (h : st'.mods = st.mods) (m : Nat) :
    st'.getMod m = st.getMod m := by
  unfold St.getMod
  rw [h]

/-- The conflict scan of `jl_module_using` only prints warnings: modules,
heap and the allocator are untouched. -/
theorem using_scan_frame (l : List (Name × Nat)) :
    ∀ (fuel : Nat) (st : St) (toM fromM : Nat),
      (using_scan fuel st toM fromM l).1.mods = st.mods ∧
      (using_scan fuel st toM fromM l).1.heap = st.heap ∧
      (using_scan fuel st toM fromM l).1.nextB = st.nextB := by
  induction l with
  | nil => intro fuel st toM fromM; exact ⟨rfl, rfl, rfl⟩
  | cons p rest ih =>
    intro fuel st toM fromM
    obtain ⟨var, bid⟩ := p
    show ((using_scan fuel st toM fromM ((var, bid) :: rest)).1.mods = st.mods) ∧ _
    unfold using_scan
    by_cases hexp : (st.getB bid).exportp = true ∧
        ((st.getB bid).owner = some bid ∨ (st.getB bid).imported = true)
    · simp only [if_pos hexp]
      cases hlk : lookupA (st.getMod toM).bindings var with
      | none => exact ih fuel st toM fromM
      | some tob =>
        by_cases hgo : (st.getB tob).owner ≠ none ∧ var ≠ (st.getMod toM).mname
        · simp only [if_pos hgo]
          cases ho : (st.getB tob).owner with
          | none => exact absurd ho hgo.1
          | some x =>
            rcases get_binding_fastpath fuel hlk ho with hgb | hgb
            · rw [hgb]
              exact ⟨rfl, rfl, rfl⟩
            · rw [hgb]
              by_cases hcf : (!eq_bindings st x bid) = true
              · simp only [hcf, if_true]
                exact ih fuel (st.addWarn (.usingConflict fromM var toM)) toM fromM
              · simp only [hcf, Bool.false_eq_true, if_false]
                exact ih fuel st toM fromM
        · simp only [if_neg hgo]
          exact ih fuel st toM fromM
    · simp only [if_neg hexp]
      exact ih fuel st toM fromM

/-- C7: `module_using` refuses self-`using` silently (the state, including
the warning log, is unchanged), and it is idempotent: after a successful
`module_using(U, F)`, a second call is a no-op, and `F` appears at most once
in `U.usings`. -/
theorem c7_module_using_idempotent (fuel fuel2 : Nat) (st : St) (u fm : Nat) :
    jl_module_using fuel st u u = (st, .ok ()) ∧
    (∀ st1, jl_module_using fuel st u fm = (st1, .ok ()) →
      jl_module_using fuel2 st1 u fm = (st1, .ok ()) ∧
      (List.count fm (st.getMod u).usings ≤ 1 →
        List.count fm (st1.getMod u).usings ≤ 1)) := by
  constructor
  · unfold jl_module_using
    rw [if_pos rfl]
  · intro st1 h
    unfold jl_module_using at h
    by_cases huf : u = fm
    · rw [if_pos huf] at h
      have hst : st = st1 := congrArg Prod.fst h
      subst hst
      constructor
      · unfold jl_module_using
        rw [if_pos huf]
      · exact fun hc => hc
    · rw [if_neg huf] at h
      by_cases hin : fm ∈ (st.getMod u).usings
      · rw [if_pos hin] at h
        have hst : st = st1 := congrArg Prod.fst h
        subst hst
        constructor
        · unfold jl_module_using
          rw [if_neg huf, if_pos hin]
        · exact fun hc => hc
      · rw [if_neg hin] at h
        rcases hs : using_scan fuel st u fm ((st.getMod fm).bindings) with ⟨ss, rs⟩
        rw [hs] at h
        cases rs with
        | error e => exact absurd (congrArg Prod.snd h) (by simp)
        | ok uu =>
          have hmods : ss.mods = st.mods := by
            have hsf := (using_scan_frame ((st.getMod fm).bindings) fuel st u fm).1
            rw [hs] at hsf
            exact hsf
          have hgm : ss.getMod u = st.getMod u := getMod_eq_of_mods hmods u
          have hst1 : ss.setMod u
              { ss.getMod u with usings := (ss.getMod u).usings ++ [fm] } = st1 :=
            congrArg Prod.fst h
          have hu1 : st1.getMod u =
              { ss.getMod u with usings := (ss.getMod u).usings ++ [fm] } := by
            rw [← hst1]
            exact getMod_setMod_same ss u _
          constructor
          · unfold jl_module_using
            rw [if_neg huf]
            have hmem : fm ∈ (st1.getMod u).usings := by
              rw [hu1]
              simp
            rw [if_pos hmem]
          · intro hc
            rw [hu1]
            show List.count fm ((ss.getMod u).usings ++ [fm]) ≤ 1
            rw [List.count_append, hgm]
            have h0 : List.count fm (st.getMod u).usings = 0 :=
              List.count_eq_zero.mpr hin
            have h1 : List.count fm [fm] = 1 := by simp
            rw [h0, h1]

/-- C7 witness: self-`using` on `stFresh` is a silent no-op; `using` module
`2` once then again leaves `M.usings = [2]` with one occurrence. -/
theorem c7_module_using_idempotent_witness :
    jl_module_using 3 stFresh 1 1 = (stFresh, .ok ()) ∧
    jl_module_using 4 { stFresh with mods := [(1, ⟨"M", [], [2]⟩)] } 1 2 =
      ({ stFresh with mods := [(1, ⟨"M", [], [2]⟩)] }, .ok ()) ∧
    List.count 2 (({ stFresh with mods := [(1, ⟨"M", [], [2]⟩)] } : St).getMod 1).usings ≤ 1 := by
  have H := c7_module_using_idempotent 3 4 stFresh 1 2
  have h1 : jl_module_using 3 stFresh 1 2 =
      ({ stFresh with mods := [(1, ⟨"M", [], [2]⟩)] }, .ok ()) := by decide
  have h2 := H.2 _ h1
  exact ⟨H.1, h2.1, h2.2 (by decide)⟩

/-- One `using`-search step that contributes no candidate (absent cell,
unexported cell, or exported cell whose recursive resolution failed) just
moves on to the next `using`. -/
theorem usb_step_skip (g : Nat) (st : St) (m : Nat) (v : Name) (imp : Nat) (rest : List Nat)
    (acc : Option (Nat × Nat)) (stk : List (Nat × Name)) (warn : Bool)
    (h : lookupA (st.getMod imp).bindings v = none ∨
         (∃ c, lookupA (st.getMod imp).bindings v = some c ∧ (st.getB c).exportp = false) ∨
         (∃ c, lookupA (st.getMod imp).bindings v = some c ∧ (st.getB c).exportp = true ∧
            jl_resolve_owner g none st imp v stk = (st, .ok none))) :
    usb_loop (g + 1) st m v (imp :: rest) acc stk warn =
      usb_loop g st m v rest acc stk warn := by
  rcases h with h | ⟨c, hc, he⟩ | ⟨c, hc, he, hr⟩
  · exact usbloop_succ_absent g rest acc stk warn h
  · exact usbloop_succ_noexp g rest acc stk warn hc he
  · rw [usbloop_succ_cand g rest acc stk warn hc he, hr]

/-- C8: resolution terminates on a mutual `using` cycle.  With `A using B`,
`B using A`, and `v` present in neither module (no cell, or only an
unresolved placeholder cell), `get_binding(A, v)` returns null without
touching the state, for every sufficiently large fuel — the cycle detector
cuts the recursion at the repeated `(module, name)` frame. -/
theorem c8_cycle_terminates (fuel : Nat) (st : St) (a b : Nat) (v : Name)
    (hab : a ≠ b)
    (hua : (st.getMod a).usings = [b])
    (hub : (st.getMod b).usings = [a])
    (hca : lookupA (st.getMod a).bindings v = none ∨
           (∃ c, lookupA (st.getMod a).bindings v = some c ∧ (st.getB c).owner = none))
    (hcb : lookupA (st.getMod b).bindings v = none ∨
           (∃ c, lookupA (st.getMod b).bindings v = some c ∧ (st.getB c).owner = none))
    (hfuel : 7 ≤ fuel) :
    jl_get_binding fuel st a v = (st, .ok none) := by
  obtain ⟨k, rfl⟩ : ∃ k, fuel = k + 7 := ⟨fuel - 7, by omega⟩
  have hobA : jl_get_binding_if_bound st a v = none := by
    unfold jl_get_binding_if_bound jl_get_module_binding
    rcases hca with h | ⟨c, hc, ho⟩
    · rw [h]
    · simp only [hc, ho]
  have hobB : jl_get_binding_if_bound st b v = none := by
    unfold jl_get_binding_if_bound jl_get_module_binding
    rcases hcb with h | ⟨c, hc, ho⟩
    · rw [h]
    · simp only [hc, ho]
  have hres_b : jl_resolve_owner (k + 4) none st b v [(a, v)] = (st, .ok none) := by
    rw [show k + 4 = (k + 3) + 1 from rfl]
    rw [resolve_succ_search (k + 3) hobB (by simp [Ne.symm hab])]
    rw [usb_succ (k + 2), hub, List.reverse_singleton]
    rw [show k + 2 = (k + 1) + 1 from rfl]
    rw [usb_step_skip (k + 1) st b v a [] none [(b, v), (a, v)] true ?skip]
    case skip =>
      rcases hca with h | ⟨c, hc, ho⟩
      · exact Or.inl h
      · cases hexp : (st.getB c).exportp with
        | false => exact Or.inr (Or.inl ⟨c, hc, hexp⟩)
        | true =>
          refine Or.inr (Or.inr ⟨c, hc, hexp, ?_⟩)
          exact resolve_succ_cyc k hobA (by simp)
    rw [show k + 1 = k + 1 from rfl, usbloop_succ_nil k]
  rw [show k + 7 = (k + 6) + 1 from rfl]
  unfold jl_get_binding
  rw [resolve_succ_search (k + 6) hobA (by simp)]
  rw [usb_succ (k + 5), hua, List.reverse_singleton]
  rw [show k + 5 = (k + 4) + 1 from rfl]
  rw [usb_step_skip (k + 4) st a v b [] none [(a, v)] true ?skipb]
  case skipb =>
    rcases hcb with h | ⟨c, hc, ho⟩
    · exact Or.inl h
    · cases hexp : (st.getB c).exportp with
      | false => exact Or.inr (Or.inl ⟨c, hc, hexp⟩)
      | true => exact Or.inr (Or.inr ⟨c, hc, hexp, hres_b⟩)
  rw [show k + 4 = (k + 3) + 1 from rfl, usbloop_succ_nil (k + 3)]

/-- C8 witness: the concrete two-module cycle `stCyc` with exported
placeholder cells for `"z"` in both modules. -/
theorem c8_cycle_terminates_witness :
    jl_get_binding 7 stCyc 1 "z" = (stCyc, .ok none) :=
  c8_cycle_terminates 7 stCyc 1 2 "z" (by decide) (by decide) (by decide)
    (Or.inr ⟨0, by decide, by decide⟩) (Or.inr ⟨1, by decide, by decide⟩) (by decide)

theorem candFor_some {st : St} {v : Name} {imp c : Nat} (h : candFor st v imp = some c) :
    lookupA (st.getMod imp).bindings v = some c ∧ (st.getB c).exportp = true := by
  unfold candFor at h
  cases hlk : lookupA (st.getMod imp).bindings v with
  | none => rw [hlk] at h; cases h
  | some c' =>
    simp only [hlk] at h
    by_cases hexp : (st.getB c').exportp = true
    · rw [if_pos hexp] at h
      cases h
      exact ⟨rfl, hexp⟩
    · rw [if_neg hexp] at h
      cases h

theorem candFor_none {st : St} {v : Name} {imp : Nat} (h : candFor st v imp = none) :
    lookupA (st.getMod imp).bindings v = none ∨
    (∃ c, lookupA (st.getMod imp).bindings v = some c ∧ (st.getB c).exportp = false) := by
  unfold candFor at h
  cases hlk : lookupA (st.getMod imp).bindings v with
  | none => exact Or.inl rfl
  | some c' =>
    simp only [hlk] at h
    by_cases hexp : (st.getB c').exportp = true
    · rw [if_pos hexp] at h
      cases h
    · rw [if_neg hexp] at h
      exact Or.inr ⟨c', rfl, by
        cases hb : (st.getB c').exportp with
        | false => rfl
        | true => exact absurd hb hexp⟩

/-- When every exported candidate cell for `v` along `l` is canonical and
the read-only scan `ambScan` detects an ambiguity, the `using`-search loop
takes the warn branch: it makes `v`'s cell in `m` resolved via
`jl_get_binding_wr`, prints the "must be qualified" warning, and returns no
binding. -/
theorem usb_loop_amb (st : St) (m : Nat) (v : Name)
    (hloc : lookupA (st.getMod m).bindings v = none) :
    ∀ (l : List Nat) (g : Nat) (acc : Option (Nat × Nat)) (stk : List (Nat × Name)),
      (∀ imp ∈ l, ∀ c, lookupA (st.getMod imp).bindings v = some c →
        (st.getB c).exportp = true → (st.getB c).owner = some c) →
      ambScan st v l (acc.map Prod.fst) = true →
      l.length + 1 ≤ g →
      ∃ o i, usb_loop g st m v l acc stk true =
        (((jl_get_binding_wr st m v true).1).addWarn (.mustBeQualified o i v m),
         .ok none) := by
  intro l
  induction l with
  | nil =>
    intro g acc stk hcanon hamb hg
    simp [ambScan] at hamb
  | cons imp rest ih =>
    intro g acc stk hcanon hamb hg
    obtain ⟨g', rfl⟩ : ∃ g', g = g' + 1 := ⟨g - 1, by omega⟩
    have hg' : rest.length + 1 ≤ g' := by
      have := hg
      simp only [List.length_cons] at this
      omega
    simp only [ambScan] at hamb
    cases hcand : candFor st v imp with
    | none =>
      rw [hcand] at hamb
      have hskip : usb_loop (g' + 1) st m v (imp :: rest) acc stk true =
          usb_loop g' st m v rest acc stk true := by
        rcases candFor_none hcand with h | ⟨c, hc, he⟩
        · exact usbloop_succ_absent g' rest acc stk true h
        · exact usbloop_succ_noexp g' rest acc stk true hc he
      rw [hskip]
      exact ih g' acc stk (fun i2 hi2 => hcanon i2 (List.mem_cons_of_mem imp hi2)) hamb hg'
    | some c =>
      rw [hcand] at hamb
      obtain ⟨hlk, hexp⟩ := candFor_some hcand
      have hown : (st.getB c).owner = some c :=
        hcanon imp (List.mem_cons_self imp rest) c hlk hexp
      obtain ⟨g'', rfl⟩ : ∃ g'', g' = g'' + 1 := ⟨g' - 1, by omega⟩
      rw [usbloop_succ_cand (g'' + 1) rest acc stk true hlk hexp]
      rw [@resolve_succ_hit g'' st imp v c stk (by
        unfold jl_get_binding_if_bound jl_get_module_binding
        simp only [hlk, hown])]
      cases acc with
      | none =>
        simp only [Option.map] at hamb
        exact ih (g'' + 1) (some (c, imp)) stk
          (fun i2 hi2 => hcanon i2 (List.mem_cons_of_mem imp hi2)) hamb
          (by omega)
      | some p =>
        obtain ⟨b0, o0⟩ := p
        simp only [Option.map] at hamb
        by_cases hcond : (st.getB c).deprecated = 0 ∧ (st.getB b0).deprecated = 0 ∧
            ¬ eq_bindings st c b0 = true
        · simp only [if_pos hcond]
          rw [wr_eq_fresh hloc]
          exact ⟨o0, imp, rfl⟩
        · simp only [if_neg hcond]
          rw [if_neg hcond] at hamb
          have hmap : (if (st.getB c).deprecated = 0 then some (c, imp)
              else some (b0, o0)).map Prod.fst =
              (if (st.getB c).deprecated = 0 then some c else some b0) := by
            by_cases hdep : (st.getB c).deprecated = 0
            · rw [if_pos hdep, if_pos hdep]
              rfl
            · rw [if_neg hdep, if_neg hdep]
              rfl
          exact ih (g'' + 1)
            (if (st.getB c).deprecated = 0 then some (c, imp) else some (b0, o0)) stk
            (fun i2 hi2 => hcanon i2 (List.mem_cons_of_mem imp hi2))
            (by rw [hmap]; exact hamb)
            (by omega)

/-- Full characterization of an ambiguous `using` lookup: shared backbone of
the ambiguity claim theorems.  With no local cell, all exported candidate
cells canonical, and the scan detecting two non-deprecated non-`eq_bindings`
candidates: the lookup returns null, prepends exactly one "must be
qualified" warning, and installs a fresh self-owned valueless cell for `v`
in `m`, so that later lookups return that cell without further warnings and
`boundp` is false. -/
theorem amb_full (fuel : Nat) (st : St) (m : Nat) (v : Name)
    (hloc : lookupA (st.getMod m).bindings v = none)
    (hcanon : ∀ imp ∈ (st.getMod m).usings, candCanon st v imp)
    (hamb : ambScan st v ((st.getMod m).usings.reverse) none = true)
    (hfuel : (st.getMod m).usings.length + 3 ≤ fuel) :
    ∃ st' o i, jl_get_binding fuel st m v = (st', .ok none) ∧
      st'.warns = Warn.mustBeQualified o i v m :: st.warns ∧
      lookupA (st'.getMod m).bindings v = some st.nextB ∧
      (st'.getB st.nextB).owner = some st.nextB ∧
      (st'.getB st.nextB).value = none ∧
      (∀ f2, jl_get_binding (f2 + 1) st' m v = (st', .ok (some st.nextB)) ∧
        jl_boundp (f2 + 1) st' m v = (st', .ok false)) := by
  obtain ⟨f, rfl⟩ : ∃ f, fuel = f + 2 := ⟨fuel - 2, by omega⟩
  have hob : jl_get_binding_if_bound st m v = none := by
    unfold jl_get_binding_if_bound jl_get_module_binding
    rw [hloc]
  have hrev : ∀ imp ∈ (st.getMod m).usings.reverse, ∀ c,
      lookupA (st.getMod imp).bindings v = some c →
      (st.getB c).exportp = true → (st.getB c).owner = some c :=
    fun imp hi => hcanon imp (List.mem_reverse.mp hi)
  obtain ⟨o, i, hloop⟩ := usb_loop_amb st m v hloc ((st.getMod m).usings.reverse) f none
    [(m, v)] hrev hamb (by rw [List.length_reverse]; omega)
  have hS : (jl_get_binding_wr st m v true).1 =
      (installCell st m v { new_binding m v with owner := some st.nextB }).1 :=
    congrArg Prod.fst (wr_eq_fresh hloc)
  refine ⟨((jl_get_binding_wr st m v true).1).addWarn (.mustBeQualified o i v m), o, i,
    ?_, ?_, ?_, ?_, ?_, ?_⟩
  · unfold jl_get_binding
    rw [show f + 2 = (f + 1) + 1 from rfl]
    rw [resolve_succ_search (f + 1) hob (by simp)]
    rw [usb_succ f, hloop]
  · show Warn.mustBeQualified o i v m :: (jl_get_binding_wr st m v true).1.warns = _
    rw [hS]
    rfl
  · show lookupA (((jl_get_binding_wr st m v true).1.addWarn _).getMod m).bindings v = _
    rw [getMod_addWarn, hS]
    show lookupA (((st.setB st.nextB _).setMod m
      { (st.setB st.nextB _).getMod m with
        bindings := setA ((st.setB st.nextB _).getMod m).bindings v st.nextB }).getMod
        m).bindings v = some st.nextB
    rw [getMod_setMod_same]
    exact lookupA_setA_same _ _ _
  · rw [getB_addWarn, hS]
    show ((st.setB st.nextB _).getB st.nextB).owner = some st.nextB
    rw [getB_setB_same]
  · rw [getB_addWarn, hS]
    show ((st.setB st.nextB _).getB st.nextB).value = none
    rw [getB_setB_same]
    rfl
  · intro f2
    have hob' : jl_get_binding_if_bound
        (((jl_get_binding_wr st m v true).1).addWarn (.mustBeQualified o i v m)) m v =
        some st.nextB := by
      unfold jl_get_binding_if_bound jl_get_module_binding
      rw [getMod_addWarn, hS]
      have hlk2 : lookupA (((installCell st m v
          { new_binding m v with owner := some st.nextB }).1).getMod m).bindings v =
          some st.nextB := by
        show lookupA (((st.setB st.nextB _).setMod m
          { (st.setB st.nextB _).getMod m with
            bindings := setA ((st.setB st.nextB _).getMod m).bindings v st.nextB }).getMod
            m).bindings v = some st.nextB
        rw [getMod_setMod_same]
        exact lookupA_setA_same _ _ _
      simp only [hlk2]
      rw [getB_addWarn]
      show ((st.setB st.nextB _).getB st.nextB).owner = some st.nextB
      rw [getB_setB_same]
    have hsec : jl_get_binding (f2 + 1)
        (((jl_get_binding_wr st m v true).1).addWarn (.mustBeQualified o i v m)) m v =
        (((jl_get_binding_wr st m v true).1).addWarn (.mustBeQualified o i v m),
         .ok (some st.nextB)) := by
      unfold jl_get_binding
      exact resolve_succ_hit f2 [] hob'
    refine ⟨hsec, ?_⟩
    unfold jl_boundp
    rw [hsec]
    have hval : ((((jl_get_binding_wr st m v true).1).addWarn
        (.mustBeQualified o i v m)).getB st.nextB).value = none := by
      rw [getB_addWarn, hS]
      show ((st.setB st.nextB _).getB st.nextB).value = none
      rw [getB_setB_same]
      rfl
    simp only [hval]
    rfl

/-- C1: with no local cell for `v` and the `using`-search over `M.usings`
finding two non-deprecated, non-`eq_bindings`-equal candidate canonical
bindings, `get_binding(M, v)` returns null and emits one "must be
qualified" warning — and only once: the call inserts a cell for `v` into
`M.bindings`, so any later `get_binding(M, v)` leaves the warning log
unchanged. -/
theorem c1_ambiguous_warns_once (fuel : Nat) (st : St) (m : Nat) (v : Name)
    (hloc : lookupA (st.getMod m).bindings v = none)
    (hcanon : ∀ imp ∈ (st.getMod m).usings, candCanon st v imp)
    (hamb : ambScan st v ((st.getMod m).usings.reverse) none = true)
    (hfuel : (st.getMod m).usings.length + 3 ≤ fuel) :
    ∃ st' o i, jl_get_binding fuel st m v = (st', .ok none) ∧
      st'.warns = Warn.mustBeQualified o i v m :: st.warns ∧
      ∀ f2, (jl_get_binding (f2 + 1) st' m v).1.warns = st'.warns := by
  obtain ⟨st', o, i, h1, h2, _, _, _, h6⟩ := amb_full fuel st m v hloc hcanon hamb hfuel
  exact ⟨st', o, i, h1, h2, fun f2 => by rw [(h6 f2).1]⟩

/-- C1 witness: scenario 8.1 (`stAmb`): `U` uses `A` then `B`, both export a
constant `x`. -/
theorem c1_ambiguous_warns_once_witness :
    ∃ st' o i, jl_get_binding 5 stAmb 3 "x" = (st', .ok none) ∧
      st'.warns = Warn.mustBeQualified o i "x" 3 :: stAmb.warns ∧
      ∀ f2, (jl_get_binding (f2 + 1) st' 3 "x").1.warns = st'.warns :=
  c1_ambiguous_warns_once 5 stAmb 3 "x" (by decide) (by decide) (by decide) (by decide)

/-- C9: the cell inserted to suppress the repeated ambiguity warning is
created self-owned via `get_binding_wr` (not unresolved): after the
ambiguous lookup, a second `get_binding(M, v)` returns that non-null
self-owned binding with no value, and `boundp(M, v)` is false. -/
theorem c9_amb_cell_self_owned (fuel : Nat) (st : St) (m : Nat) (v : Name)
    (hloc : lookupA (st.getMod m).bindings v = none)
    (hcanon : ∀ imp ∈ (st.getMod m).usings, candCanon st v imp)
    (hamb : ambScan st v ((st.getMod m).usings.reverse) none = true)
    (hfuel : (st.getMod m).usings.length + 3 ≤ fuel) :
    ∃ st' bid, jl_get_binding fuel st m v = (st', .ok none) ∧
      lookupA (st'.getMod m).bindings v = some bid ∧
      (st'.getB bid).owner = some bid ∧
      (st'.getB bid).value = none ∧
      ∀ f2, jl_get_binding (f2 + 1) st' m v = (st', .ok (some bid)) ∧
        jl_boundp (f2 + 1) st' m v = (st', .ok false) := by
  obtain ⟨st', o, i, h1, _, h3, h4, h5, h6⟩ := amb_full fuel st m v hloc hcanon hamb hfuel
  exact ⟨st', st.nextB, h1, h3, h4, h5, h6⟩

/-- C9 witness: scenario 8.1 (`stAmb`): the suppression cell is binding `2`,
self-owned with no value, and the second lookup returns it. -/
theorem c9_amb_cell_self_owned_witness :
    ∃ st' bid, jl_get_binding 5 stAmb 3 "x" = (st', .ok none) ∧
      lookupA (st'.getMod 3).bindings "x" = some bid ∧
      (st'.getB bid).owner = some bid ∧
      (st'.getB bid).value = none ∧
      ∀ f2, jl_get_binding (f2 + 1) st' 3 "x" = (st', .ok (some bid)) ∧
        jl_boundp (f2 + 1) st' 3 "x" = (st', .ok false) :=
  c9_amb_cell_self_owned 5 stAmb 3 "x" (by decide) (by decide) (by decide) (by decide)
